import Mathlib

/-!
Verification of roc-streaming/bindgen: shallow embedding of the documentation
model, cross-reference resolver and target renderers, translated from the
Python sources (`lib/definitions.py`, `lib/case_utils.py`, `lib/doxygen_parser.py`,
`lib/java_generator.py`, `lib/go_generator.py`, `generate_bindings.py`).
Python strings are modelled as Lean `String`/`List Char` (ASCII behaviour),
dictionaries as association lists in insertion order.
-/

namespace Bindgen

/-! ### Python string primitives (ASCII semantics) -/

/-- Python whitespace characters (`string.whitespace`, ASCII). -/
def isPySpace (c : Char) : Bool :=
  c = ' ' || c = '\t' || c = '\n' || c = '\r' || c = '\x0b' || c = '\x0c'

/-- Python `str.startswith(p)` (kernel-reducible, via char lists). -/
def strIsPre (p s : String) : Bool := p.toList.isPrefixOf s.toList

/-- Python `str.split(sep)` for a one-character separator, on char lists. -/
def splitOnCharL (sep : Char) : List Char → List (List Char)
  | [] => [[]]
  | c :: cs =>
    if c = sep then [] :: splitOnCharL sep cs
    else
      match splitOnCharL sep cs with
      | s :: ss => (c :: s) :: ss
      | [] => [[c]]

/-- Python `str.capitalize()` on char lists (ASCII: first char uppercased,
the rest lowercased). -/
def pyCapitalizeL (l : List Char) : List Char :=
  match l with
  | [] => []
  | c :: cs => c.toUpper :: cs.map Char.toLower

/-- Python `str.removeprefix` on char lists. -/
def dropPreL (pre l : List Char) : List Char :=
  if pre.isPrefixOf l then l.drop pre.length else l

/-- Python `str.removesuffix` on char lists. -/
def dropSufL (suf l : List Char) : List Char :=
  if suf.isSuffixOf l then l.take (l.length - suf.length) else l

/-- Python `str.strip()` on char lists. -/
def stripL (l : List Char) : List Char :=
  ((l.dropWhile isPySpace).reverse.dropWhile isPySpace).reverse

/-- Python `str.rstrip()` on char lists. -/
def rstripL (l : List Char) : List Char :=
  (l.reverse.dropWhile isPySpace).reverse

/-- Python `str.replace(pat, rep)` (left-to-right, non-overlapping), on char
lists, with explicit fuel so that the kernel can evaluate it (each step
consumes at least one character; the patterns used in the sources are never
empty). -/
def replaceLGo (pat rep : List Char) : Nat → List Char → List Char
  | 0, l => l
  | _ + 1, [] => []
  | fuel + 1, c :: rest =>
    if pat ≠ [] ∧ pat.isPrefixOf (c :: rest) then
      rep ++ replaceLGo pat rep fuel ((c :: rest).drop pat.length)
    else
      c :: replaceLGo pat rep fuel rest

def replaceL (pat rep : List Char) (l : List Char) : List Char :=
  replaceLGo pat rep l.length l

/-- `lib/case_utils.py` `to_pascal_case`. -/
def to_pascal_case (name : String) : String :=
  ⟨((splitOnCharL '_' name.toList).map pyCapitalizeL).flatten⟩

/-- `lib/case_utils.py` `to_camel_case` (`name[0].lower() + to_pascal_case(name)[1:]`;
Python raises on the empty string, which never reaches this function). -/
def to_camel_case (name : String) : String :=
  match name.toList with
  | [] => ""
  | c :: _ => ⟨c.toLower :: (to_pascal_case name).toList.drop 1⟩

/-- Python `str.removeprefix` on strings. -/
def pyRemovePre (s pre : String) : String := ⟨dropPreL pre.toList s.toList⟩

/-- Python `str.removesuffix` on strings. -/
def pyRemoveSuf (s suf : String) : String := ⟨dropSufL suf.toList s.toList⟩

/-- Python `str.upper()` (ASCII). -/
def pyUpper (s : String) : String := ⟨s.toList.map Char.toUpper⟩

/-- Python `str.lower()` (ASCII). -/
def pyLower (s : String) : String := ⟨s.toList.map Char.toLower⟩

/-- Python `str.strip()`. -/
def pyStrip (s : String) : String := ⟨stripL s.toList⟩

/-- Python `str.rstrip()`. -/
def pyRstrip (s : String) : String := ⟨rstripL s.toList⟩

/-- Python `str.replace(pat, rep)`. -/
def pyReplace (s pat rep : String) : String := ⟨replaceL pat.toList rep.toList s.toList⟩

/-- Python `str.split("\n")`. -/
def pySplitNl (s : String) : List String := (splitOnCharL '\n' s.toList).map (⟨·⟩)

/-- Association-list lookup (Python `dict` lookup; insertion order preserved). -/
def alookup {α : Type} (k : String) : List (String × α) → Option α
  | [] => none
  | (k', v) :: rest => if k' = k then some v else alookup k rest

/-! ### Documentation model (`lib/definitions.py`) -/

mutual
/-- `lib/definitions.py` `DocItem`: a single formatting unit. `text` is `None`
for items such as `see`; `child_blocks` is modelled as `[]` when Python holds
`None` (both are falsy, and only truthiness and iteration are used). -/
inductive DocItem : Type where
  | mk (type : String) (text : Option String) (child_blocks : List DocBlock) : DocItem

/-- `lib/definitions.py` `DocBlock`: a sequence of successive items. -/
inductive DocBlock : Type where
  | mk (items : List DocItem) : DocBlock
end

def DocItem.type : DocItem → String
  | .mk t _ _ => t

def DocItem.text : DocItem → Option String
  | .mk _ txt _ => txt

def DocItem.child_blocks : DocItem → List DocBlock
  | .mk _ _ bs => bs

def DocBlock.items : DocBlock → List DocItem
  | .mk its => its

/-- `lib/definitions.py` `DocComment`: a comment is a list of blocks. -/
structure DocComment where
  blocks : List DocBlock

/-- `lib/definitions.py` `DocRef`: a resolved code reference. Optional fields
mirror the Python dataclass defaults (`None`). -/
structure DocRef where
  type : String
  name : String
  enum_name : Option String := none
  enum_value_name : Option String := none
  class_name : Option String := none
  class_method_name : Option String := none
deriving DecidableEq

structure EnumValue where
  name : String
  value : String
  doc : DocComment

structure EnumDefinition where
  name : String
  values : List EnumValue
  doc : DocComment

structure StructField where
  name : String
  type : String
  doc : DocComment

structure StructDefinition where
  name : String
  fields : List StructField
  doc : DocComment

structure ClassMethod where
  name : String
  doc : DocComment

structure ClassDefinition where
  name : String
  methods : List ClassMethod
  doc : DocComment

structure GitInfo where
  tag : String
  commit : String

/-! ### XML element model and the two documentation parsers

`xml.etree.ElementTree.Element` is modelled with the fields the parsers
consult: tag, the `kind` attribute, text, tail, and the child list. -/

inductive Elem : Type where
  | mk (tag : String) (kindAttr : Option String) (text : Option String)
       (tail : Option String) (children : List Elem) : Elem

def Elem.tag : Elem → String
  | .mk t _ _ _ _ => t

def Elem.kindAttr : Elem → Option String
  | .mk _ k _ _ _ => k

def Elem.text : Elem → Option String
  | .mk _ _ txt _ _ => txt

def Elem.tail : Elem → Option String
  | .mk _ _ _ tl _ => tl

def Elem.children : Elem → List Elem
  | .mk _ _ _ _ cs => cs

/-- The `if elem.text and elem.text.strip(): text = elem.text.strip()` step of
`lib/doxygen_parser.py` `_parse_doc_elem` (and `strip_text` of
`generate_bindings.py`, which is semantically identical). -/
def stripText (t : Option String) : Option String :=
  match t with
  | none => none
  | some s => if pyStrip s ≠ "" then some (pyStrip s) else none

/-- Whether a tail string contributes a trailing `text` item
(`if elem_item.tail:` then `if stripped_tail:`). -/
def tailItems (tl : Option String) : List DocItem :=
  match tl with
  | none => []
  | some s => if s ≠ "" ∧ pyStrip s ≠ "" then [.mk "text" (some (pyStrip s)) []] else []

mutual
/-- `lib/doxygen_parser.py` `_parse_doc_elem`. -/
def parseDocElem : Elem → List DocItem
  | .mk tag kindAttr txt _ children =>
    let text := stripText txt
    let base : List DocItem :=
      if tag = "para" then
        match text with | some t => [.mk "text" (some t) []] | none => []
      else if tag = "ref" then
        match text with | some t => [.mk "ref" (some t) []] | none => []
      else if tag = "simplesect" then
        if kindAttr = some "see" then [.mk "see" none []] else []
      else if tag = "computeroutput" then
        match text with | some t => [.mk "code" (some t) []] | none => []
      else if tag = "bold" then
        match text with | some t => [.mk "bold" (some t) []] | none => []
      else if tag = "emphasis" then
        match text with | some t => [.mk "emphasis" (some t) []] | none => []
      else if tag = "itemizedlist" then
        [.mk "list" none (parseListBlocks children)]
      else []
    if tag = "itemizedlist" then base
    else base ++ parseChildren children

/-- The `for elem_item in elem` loop of `_parse_doc_elem`, including tails. -/
def parseChildren : List Elem → List DocItem
  | [] => []
  | e :: es => parseDocElem e ++ tailItems e.tail ++ parseChildren es

/-- The `for li in elem.findall("listitem")` loop of the `itemizedlist` branch. -/
def parseListBlocks : List Elem → List DocBlock
  | [] => []
  | .mk tag _ _ _ cs :: es =>
    if tag = "listitem" then .mk (parseInsideLi cs) :: parseListBlocks es
    else parseListBlocks es

/-- The `for e in li` loop inside a list item (tails are not collected there). -/
def parseInsideLi : List Elem → List DocItem
  | [] => []
  | e :: es => parseDocElem e ++ parseInsideLi es
end

/-- `generate_bindings.py` `DocItem` (the legacy model): list items carry
`values: list[list[DocItem]]` instead of wrapped blocks. -/
inductive LDocItem : Type where
  | mk (type : String) (text : Option String) (values : List (List LDocItem)) : LDocItem

def LDocItem.type : LDocItem → String
  | .mk t _ _ => t

/-- Legacy tail items (same code shape as the current parser). -/
def tailItemsL (tl : Option String) : List LDocItem :=
  match tl with
  | none => []
  | some s => if s ≠ "" ∧ pyStrip s ≠ "" then [.mk "text" (some (pyStrip s)) []] else []

mutual
/-- `generate_bindings.py` `parse_doc_elem` (the legacy parser). -/
def parseDocElemLegacy : Elem → List LDocItem
  | .mk tag kindAttr txt _ children =>
    let text := stripText txt
    let base : List LDocItem :=
      if tag = "para" then
        match text with | some t => [.mk "text" (some t) []] | none => []
      else if tag = "ref" then
        match text with | some t => [.mk "ref" (some t) []] | none => []
      else if tag = "simplesect" then
        if kindAttr = some "see" then [.mk "see" none []] else []
      else if tag = "computeroutput" then
        match text with | some t => [.mk "code" (some t) []] | none => []
      else if tag = "bold" then
        match text with | some t => [.mk "bold" (some t) []] | none => []
      else if tag = "emphasis" then
        match text with | some t => [.mk "emphasis" (some t) []] | none => []
      else if tag = "itemizedlist" then
        [.mk "list" none (parseListValues children)]
      else []
    if tag = "itemizedlist" then base
    else base ++ parseChildrenLegacy children

def parseChildrenLegacy : List Elem → List LDocItem
  | [] => []
  | e :: es => parseDocElemLegacy e ++ tailItemsL e.tail ++ parseChildrenLegacy es

def parseListValues : List Elem → List (List LDocItem)
  | [] => []
  | .mk tag _ _ _ cs :: es =>
    if tag = "listitem" then parseInsideLiLegacy cs :: parseListValues es
    else parseListValues es

def parseInsideLiLegacy : List Elem → List LDocItem
  | [] => []
  | e :: es => parseDocElemLegacy e ++ parseInsideLiLegacy es
end

mutual
/-- Forgetting the `DocBlock` wrapper: maps the current model onto the legacy one. -/
def eraseItem : DocItem → LDocItem
  | .mk t txt blocks => .mk t txt (eraseBlocks blocks)

def eraseBlocks : List DocBlock → List (List LDocItem)
  | [] => []
  | b :: bs => eraseBlock b :: eraseBlocks bs

def eraseBlock : DocBlock → List LDocItem
  | .mk items => eraseItems items

def eraseItems : List DocItem → List LDocItem
  | [] => []
  | i :: is => eraseItem i :: eraseItems is
end

/-! ### Symbol index and reference resolver (`lib/doxygen_parser.py`) -/

/-- The definition set handed to the index builder (`parse_doxygen` after the
XML phase): definitions in declaration order. The Python `OrderedDict`s are
keyed by definition name; lists in declaration order model them. -/
structure ApiModel where
  enums : List EnumDefinition
  structs : List StructDefinition
  classes : List ClassDefinition

def enumNames (m : ApiModel) : List String := m.enums.map EnumDefinition.name

def structNames (m : ApiModel) : List String := m.structs.map StructDefinition.name

def classNames (m : ApiModel) : List String := m.classes.map ClassDefinition.name

/-- `_ODD_PREFIXES` of `lib/doxygen_parser.py`. -/
def ODD_PREFIXES : List (String × String) := [("roc_protocol", "ROC_PROTO_")]

/-- `_build_enum_prefixes`: maps each enum name, in declaration order, to its
value-name sentinel (the odd table entry, or `name.upper() + "_"`). -/
def buildEnumPrefixesList (enums : List EnumDefinition) : List (String × String) :=
  enums.map (fun e => (e.name, (alookup e.name ODD_PREFIXES).getD (pyUpper e.name ++ "_")))

/-- The key set of `_build_struct_fields` (the mapped-to sets of struct names
are never read by the resolver, so only key membership is modelled). -/
def structFieldNames (structs : List StructDefinition) : List String :=
  structs.flatMap (fun s => s.fields.map StructField.name)

def isLowerAZ (c : Char) : Bool := 'a' ≤ c && c ≤ 'z'

def isLowerUnd (c : Char) : Bool := isLowerAZ c || c = '_'

/-- `re.match(r'^(roc_[a-z]+)_([a-z_]+)(\(\))?$', name)`: on success returns
the two captured groups. The first group is forced to be `roc_` plus the
maximal lowercase run (which must be followed by `_`); the second group is the
maximal `[a-z_]` run, optionally followed by the call marker `()`. -/
def matchClassMethodRe (name : String) : Option (String × String) :=
  let l := name.toList
  if ("roc_".toList).isPrefixOf l then
    let rest := l.drop 4
    let w1 := rest.takeWhile isLowerAZ
    if w1 = [] then none
    else
      match rest.drop w1.length with
      | '_' :: rest2 =>
        let w2 := rest2.takeWhile isLowerUnd
        let rem := rest2.drop w2.length
        if w2 ≠ [] ∧ (rem = [] ∨ rem = ['(', ')']) then
          some (⟨'r' :: 'o' :: 'c' :: '_' :: w1⟩, ⟨w2⟩)
        else none
      | _ => none
  else none

/-- `re.match(r'^roc_[a-z_]+$', name)`. -/
def matchTypedefRe (name : String) : Bool :=
  ("roc_".toList).isPrefixOf name.toList
    && name.toList.drop 4 ≠ []
    && (name.toList.drop 4).all isLowerUnd

/-- `_build_doc_ref` of `lib/doxygen_parser.py`: classify one reference token.
Dictionary membership tests become name-list membership; the
`for enum_name, prefix in enum_prefixes.items()` loop returning on the first
match becomes `List.find?` over the prefix table in insertion order. -/
def buildDocRef (enums structs classes : List String)
    (enumPrefixTable : List (String × String)) (fieldNames : List String)
    (name : String) : Option DocRef :=
  if enums.contains name then some { type := "enum", name := name }
  else if structs.contains name then some { type := "struct", name := name }
  else if classes.contains name then some { type := "class", name := name }
  else
    match (if strIsPre "ROC_" name
           then enumPrefixTable.find? (fun p => strIsPre p.2 name)
           else none) with
    | some (enumName, pre) =>
      some { type := "enum_value", name := name, enum_name := some enumName,
             enum_value_name := some (pyRemovePre name pre) }
    | none =>
      if fieldNames.contains name then some { type := "struct_field", name := name }
      else
        match matchClassMethodRe name with
        | some (cn, mn) =>
          if classes.contains cn then
            some { type := "class_method", name := name, class_name := some cn,
                   class_method_name := some mn }
          else if matchTypedefRe name then some { type := "typedef", name := name }
          else none
        | none =>
          if matchTypedefRe name then some { type := "typedef", name := name }
          else none

/-- `_build_doc_ref` applied with the indexes derived from the model. -/
def buildDocRefModel (m : ApiModel) (name : String) : Option DocRef :=
  buildDocRef (enumNames m) (structNames m) (classNames m)
    (buildEnumPrefixesList m.enums) (structFieldNames m.structs) name

mutual
/-- One step of `_visit_items`: a `ref`/`code` item contributes its token
(`_visit_item` keys the cache by `doc_item.text`; the parser only emits such
items with a present text, modelled by `Option.getD ""`); otherwise, when
`item.child_blocks` is non-empty, its blocks are visited. -/
def visitItemTokens : DocItem → List String
  | .mk t txt blocks =>
    if t = "ref" ∨ t = "code" then [txt.getD ""]
    else
      match blocks with
      | [] => []
      | _ :: _ => visitBlocksTokens blocks

def visitBlocksTokens : List DocBlock → List String
  | [] => []
  | b :: bs => visitBlockTokens b ++ visitBlocksTokens bs

def visitBlockTokens : DocBlock → List String
  | .mk items => visitItemsTokens items

def visitItemsTokens : List DocItem → List String
  | [] => []
  | i :: is => visitItemTokens i ++ visitItemsTokens is
end

/-- `_visit_definition`: visit all blocks of one documentation comment. -/
def visitDocTokens (doc : DocComment) : List String :=
  visitBlocksTokens doc.blocks

/-- The reference tokens of the whole model in the traversal order of
`_build_doc_refs`: enums with their values, then structs with their fields,
then classes with their methods. -/
def modelTokens (m : ApiModel) : List String :=
  (m.enums.flatMap fun e => visitDocTokens e.doc ++ e.values.flatMap (visitDocTokens ·.doc))
    ++ (m.structs.flatMap fun s => visitDocTokens s.doc ++ s.fields.flatMap (visitDocTokens ·.doc))
    ++ (m.classes.flatMap fun c => visitDocTokens c.doc ++ c.methods.flatMap (visitDocTokens ·.doc))

/-- The cache update of `_visit_item`: resolve a token unless already cached,
and store only successful classifications. -/
def insertToken (m : ApiModel) (refs : List (String × DocRef)) (tok : String) :
    List (String × DocRef) :=
  if (alookup tok refs).isSome then refs
  else
    match buildDocRefModel m tok with
    | some r => refs ++ [(tok, r)]
    | none => refs

/-- `_build_doc_refs`: the token → `DocRef` cache built once over every
documentation tree of the model. -/
def buildDocRefs (m : ApiModel) : List (String × DocRef) :=
  (modelTokens m).foldl (insertToken m) []

/-- `lib/definitions.py` `ApiRoot`, assembled as in `parse_doxygen`. -/
structure ApiRoot where
  git_info : GitInfo
  enum_definitions : List EnumDefinition
  struct_definitions : List StructDefinition
  class_definitions : List ClassDefinition
  enum_prefix_table : List (String × String)
  struct_field_names : List String
  doc_refs : List (String × DocRef)

/-- The index-building phase of `parse_doxygen` (the XML phase is the
`ApiModel` input; version-control metadata is a parameter). -/
def assembleApiRoot (g : GitInfo) (m : ApiModel) : ApiRoot where
  git_info := g
  enum_definitions := m.enums
  struct_definitions := m.structs
  class_definitions := m.classes
  enum_prefix_table := buildEnumPrefixesList m.enums
  struct_field_names := structFieldNames m.structs
  doc_refs := buildDocRefs m

/-! ### `textwrap.wrap` (CPython), for the configuration used by the renderers:
`break_on_hyphens=False` and defaults `expand_tabs=True`,
`replace_whitespace=True`, `drop_whitespace=True`, `break_long_words=True`,
`tabsize=8`, `max_lines=None`. -/

/-- `str.expandtabs(8)` (column resets after newline and carriage return). -/
def expandTabsGo (col : Nat) : List Char → List Char
  | [] => []
  | c :: rest =>
    if c = '\t' then
      let pad := 8 - col % 8
      List.replicate pad ' ' ++ expandTabsGo (col + pad) rest
    else if c = '\n' ∨ c = '\r' then c :: expandTabsGo 0 rest
    else c :: expandTabsGo (col + 1) rest

/-- `TextWrapper._munge_whitespace`: expand tabs, then turn every whitespace
character into a space. -/
def mungeL (l : List Char) : List Char :=
  (expandTabsGo 0 l).map (fun c => if isPySpace c then ' ' else c)

/-- `TextWrapper._split` with `wordsep_simple_re` (split on whitespace runs,
separators kept, empties dropped): after munging this is grouping the text
into maximal runs of spaces / non-spaces. -/
def chunksL : List Char → List (List Char)
  | [] => []
  | c :: rest =>
    match chunksL rest with
    | [] => [[c]]
    | [] :: gs => [c] :: [] :: gs
    | (d :: g) :: gs =>
      if ((c == ' ') == (d == ' ')) then (c :: d :: g) :: gs
      else [c] :: (d :: g) :: gs

/-- `chunk.strip() == ''`. -/
def chunkAllSpace (g : List Char) : Bool := g.all isPySpace

/-- The inner `while chunks:` greedy loop of `_wrap_chunks`: pop chunks onto
the current line while they fit. Returns (line chunks, rest). -/
def greedyFill (lw : Int) (curLen : Int) : List (List Char) → (List (List Char) × List (List Char))
  | [] => ([], [])
  | g :: gs =>
    if (curLen + g.length : Int) ≤ lw then
      let p := greedyFill lw (curLen + g.length) gs
      (g :: p.1, p.2)
    else ([], g :: gs)

def sumLens (gs : List (List Char)) : Int := gs.foldl (fun a g => a + (g.length : Int)) 0

/-- `TextWrapper._handle_long_word` with `break_long_words=True` and
`break_on_hyphens=False`: when the head chunk is longer than the line width,
break it at the space left on the current line. -/
def handleLong (lw curLen : Int) (cur rest : List (List Char)) :
    List (List Char) × List (List Char) :=
  match rest with
  | h :: t =>
    if (h.length : Int) > lw then
      let spaceLeft : Int := if lw < 1 then 1 else lw - curLen
      (cur ++ [h.take spaceLeft.toNat], h.drop spaceLeft.toNat :: t)
    else (cur, rest)
  | [] => (cur, rest)

/-- The `drop_whitespace` removal of a trailing whitespace chunk from the
current line. -/
def dropTrailingWS (cur : List (List Char)) : List (List Char) :=
  match cur.reverse with
  | last :: front => if chunkAllSpace last then front.reverse else cur
  | [] => cur

/-- The outer loop of `TextWrapper._wrap_chunks`, with explicit fuel (the
Python loop terminates because every iteration consumes a chunk or shortens
the head chunk). One iteration: pick the indent, drop a leading whitespace
chunk (except on the first line), fill greedily, break an over-long head
chunk, drop a trailing whitespace chunk, and emit the line if non-empty. -/
def wrapChunksLoop (width : Int) : Nat → List Char → List Char →
    List (List Char) → List (List Char) → List (List Char)
  | 0, _, _, _, acc => acc
  | _ + 1, _, _, [], acc => acc
  | fuel + 1, initInd, subInd, g0 :: gs0, acc =>
    let indent := if acc.isEmpty then initInd else subInd
    let lw : Int := width - (indent.length : Int)
    let chunks1 := if chunkAllSpace g0 ∧ ¬ acc.isEmpty then gs0 else g0 :: gs0
    let gf := greedyFill lw 0 chunks1
    let pair2 := handleLong lw (sumLens gf.1) gf.1 gf.2
    let cur3 := dropTrailingWS pair2.1
    let acc2 := if cur3.isEmpty then acc else acc ++ [indent ++ cur3.flatten]
    wrapChunksLoop width fuel initInd subInd pair2.2 acc2

/-- `textwrap.wrap(t, width, break_on_hyphens=False, initial_indent,
subsequent_indent)`. -/
def pyWrap (width : Int) (initInd subInd : String) (t : String) : List String :=
  let chunks := chunksL (mungeL t.toList)
  let fuel := (mungeL t.toList).length + chunks.length + 2
  (wrapChunksLoop width fuel initInd.toList subInd.toList chunks []).map (⟨·⟩)

/-! ### Java renderer (`lib/java_generator.py`) -/

def JAVA_TYPE_MAP : List (String × String) :=
  [("unsigned int", "int"), ("int", "int"), ("unsigned long", "long"),
   ("long", "long"), ("unsigned long long", "long"), ("long long", "long"),
   ("char", "String")]

def JAVA_TYPE_OVERRIDE : List (String × String) :=
  [("packetLength", "Duration"), ("targetLatency", "Duration"),
   ("latencyTolerance", "Duration"), ("noPlaybackTimeout", "Duration"),
   ("choppyPlaybackTimeout", "Duration"), ("reuseAddress", "boolean")]

def JAVA_NAME_OVERRIDE : List (String × String) :=
  [("roc_context", "RocContext"), ("roc_sender", "RocSender"),
   ("roc_receiver", "RocReceiver"), ("roc_context_config", "RocContextConfig"),
   ("roc_sender_config", "RocSenderConfig"),
   ("roc_receiver_config", "RocReceiverConfig")]

/-- `_get_java_enum_name`. -/
def getJavaEnumName (roc_name : String) : String :=
  match alookup roc_name JAVA_NAME_OVERRIDE with
  | some v => v
  | none => to_pascal_case (pyRemovePre roc_name "roc_")

/-- `_get_java_enum_value_name` (`self._api_root.enum_prefixes.get(...)`; the
enum is always registered when this is reached, a missing entry is modelled
as the empty sentinel). -/
def getJavaEnumValueName (prefixTable : List (String × String))
    (roc_enum_name roc_enum_value_name : String) : String :=
  pyRemovePre roc_enum_value_name ((alookup roc_enum_name prefixTable).getD "")

/-- `_get_java_struct_name`. -/
def getJavaStructName (roc_name : String) : String :=
  match alookup roc_name JAVA_NAME_OVERRIDE with
  | some v => v
  | none => to_pascal_case (pyRemovePre roc_name "roc_")

/-- `_get_java_class_name`. -/
def getJavaClassName (roc_name : String) : String :=
  match alookup roc_name JAVA_NAME_OVERRIDE with
  | some v => v
  | none => to_pascal_case (pyRemovePre roc_name "roc_")

/-- `_get_java_class_method_name`. -/
def getJavaClassMethodName (roc_method_name : String) : String :=
  to_camel_case roc_method_name

/-- `_get_java_struct_field_name`. -/
def getJavaStructFieldName (field_name : String) : String :=
  to_camel_case field_name

/-- `_get_java_struct_field_type`: per-field override, then `roc_`-namespaced
name translation, then the primitive table, then the raw source type. -/
def getJavaStructFieldType (f : StructField) : String :=
  let java_field_name := to_camel_case f.name
  match alookup java_field_name JAVA_TYPE_OVERRIDE with
  | some v => v
  | none =>
    if strIsPre "roc_" f.type then getJavaClassName f.type
    else
      match alookup f.type JAVA_TYPE_MAP with
      | some v => v
      | none => f.type

/-- `JavaGenerator._doc_ref_to_string`: `ref_link` is `Option` (Python `None`),
and the final `if ref_link:` also treats an empty link as falsy. -/
def javaDocRefToString (docRefs : List (String × DocRef))
    (prefixTable : List (String × String)) (ref_value : String) : String :=
  let lc : Option String × String :=
    match alookup ref_value docRefs with
    | none => (none, ref_value)
    | some ref =>
      if ref.type = "enum" then (some (getJavaEnumName ref.name), ref_value)
      else if ref.type = "enum_value" then
        let enum_name := getJavaEnumName (ref.enum_name.getD "")
        let value_name := getJavaEnumValueName prefixTable (ref.enum_name.getD "")
          (ref.enum_value_name.getD "")
        (some (enum_name ++ "#" ++ value_name), ref_value)
      else if ref.type = "struct" then (some (getJavaStructName ref.name), ref_value)
      else if ref.type = "struct_field" then (none, getJavaStructFieldName ref.name)
      else if ref.type = "class" then (some (getJavaClassName ref.name), ref_value)
      else if ref.type = "class_method" ∧ ref.class_method_name = some "open" then
        (some (getJavaClassName (ref.class_name.getD "") ++ "()"), ref_value)
      else if ref.type = "class_method" then
        (some (getJavaClassName (ref.class_name.getD "") ++ "#"
          ++ getJavaClassMethodName (ref.class_method_name.getD "") ++ "()"), ref_value)
      else if ref.type = "typedef" then (some (getJavaClassName ref.name), ref_value)
      else (none, getJavaClassName ref.name)
  match lc.1 with
  | some s => if s ≠ "" then "\x7b@link " ++ s ++ "\x7d" else "\x7b@code " ++ lc.2 ++ "\x7d"
  | none => "\x7b@code " ++ lc.2 ++ "\x7d"

mutual
/-- The per-item pieces of `JavaGenerator._doc_block_to_string` (`result`). -/
def javaItemStrings (docRefs : List (String × DocRef))
    (prefixTable : List (String × String)) : List DocItem → List String
  | [] => []
  | i :: rest => javaItemString docRefs prefixTable i ++ javaItemStrings docRefs prefixTable rest

/-- One iteration of the item loop of `_doc_block_to_string`. -/
def javaItemString (docRefs : List (String × DocRef))
    (prefixTable : List (String × String)) : DocItem → List String
  | .mk t txt blocks =>
    if t = "text" then [txt.getD ""]
    else if t = "bold" then ["<b>" ++ txt.getD "" ++ "</b>"]
    else if t = "emphasis" then ["<em>" ++ txt.getD "" ++ "</em>"]
    else if t = "ref" ∨ t = "code" then [javaDocRefToString docRefs prefixTable (txt.getD "")]
    else if t = "see" then ["@see"]
    else if t = "list" then
      ["<ul>\n" ++ javaListItems docRefs prefixTable blocks ++ "</ul>\n"]
    else []

/-- The `<ul>` accumulation (`ul`) of the `list` branch, one `<li>` per block. -/
def javaListItems (docRefs : List (String × DocRef))
    (prefixTable : List (String × String)) : List DocBlock → String
  | [] => ""
  | b :: bs =>
    "<li>" ++ javaDocBlockToString docRefs prefixTable b ++ "</li>\n"
      ++ javaListItems docRefs prefixTable bs

/-- `JavaGenerator._doc_block_to_string`. -/
def javaDocBlockToString (docRefs : List (String × DocRef))
    (prefixTable : List (String × String)) : DocBlock → String
  | .mk items =>
    pyReplace (pyReplace (String.intercalate " " (javaItemStrings docRefs prefixTable items))
      " ," ",") " ." "."
end

/-! #### The `{@...}` masking of `_format_javadoc`

`re.sub(r'(\{@[a-z]+)(\s+)(\S+)(\})', r'\1_\3\4', text)` before wrapping, and
`re.sub(r'(\{@[a-z]+)(_)(\S+)(\})', r'\1 \3\4', line)` on each wrapped line.
A match is `{@`, a non-empty lowercase run, whitespace (resp. one `_`), then a
greedy non-space run that must end in `}` (backtracking stops at the last `}`
of the run, which must leave a non-empty group). -/

/-- Index of the last `}` in a char list (the position the greedy `\S+`
backtracks to). -/
def lastBraceIdx (l : List Char) : Option Nat :=
  match l with
  | [] => none
  | c :: rest =>
    match lastBraceIdx rest with
    | some k => some (k + 1)
    | none => if c = '\x7d' then some 0 else none

/-- Try the mask pattern at the head; on success return (replacement,
remainder after the matched span). -/
def matchMaskAt (l : List Char) : Option (List Char × List Char) :=
  match l with
  | c1 :: c2 :: rest =>
    if c1 = '\x7b' ∧ c2 = '@' then
      let letters := rest.takeWhile isLowerAZ
      if letters = [] then none
      else
        let r2 := rest.drop letters.length
        let sp := r2.takeWhile isPySpace
        if sp = [] then none
        else
          let r3 := r2.drop sp.length
          let ns := r3.takeWhile (fun c => !(isPySpace c))
          match lastBraceIdx ns with
          | some k =>
            if 1 ≤ k then
              some ('\x7b' :: '@' :: letters ++ '_' :: ns.take k ++ ['\x7d'],
                    ns.drop (k + 1) ++ r3.drop ns.length)
            else none
          | none => none
    else none
  | _ => none

/-- Try the unmask pattern at the head (single `_`, restored to one space). -/
def matchUnmaskAt (l : List Char) : Option (List Char × List Char) :=
  match l with
  | c1 :: c2 :: rest =>
    if c1 = '\x7b' ∧ c2 = '@' then
      let letters := rest.takeWhile isLowerAZ
      if letters = [] then none
      else
        match rest.drop letters.length with
        | c3 :: r3 =>
          if c3 = '_' then
            let ns := r3.takeWhile (fun c => !(isPySpace c))
            match lastBraceIdx ns with
            | some k =>
              if 1 ≤ k then
                some ('\x7b' :: '@' :: letters ++ ' ' :: ns.take k ++ ['\x7d'],
                      ns.drop (k + 1) ++ r3.drop ns.length)
              else none
            | none => none
          else none
        | [] => none
    else none
  | _ => none

/-- Left-to-right, non-overlapping `re.sub` scan (fuelled; each step consumes
at least one character). -/
def reSubScan (step : List Char → Option (List Char × List Char)) :
    Nat → List Char → List Char
  | 0, l => l
  | _ + 1, [] => []
  | fuel + 1, c :: rest =>
    match step (c :: rest) with
    | some (rep, rem) => rep ++ reSubScan step fuel rem
    | none => c :: reSubScan step fuel rest

/-- The space-masking substitution applied to block text before wrapping. -/
def maskLinks (s : String) : String :=
  ⟨reSubScan matchMaskAt (s.toList.length + 1) s.toList⟩

/-- The space-restoring substitution applied to each wrapped line. -/
def unmaskLine (s : String) : String :=
  ⟨reSubScan matchUnmaskAt (s.toList.length + 1) s.toList⟩

/-- `JavaGenerator._format_javadoc`, as the list of produced lines (the Python
function returns their concatenation, each line followed by a newline). -/
def formatJavadocLines (docRefs : List (String × DocRef))
    (prefixTable : List (String × String)) (doc : DocComment) (indent_size : Nat) :
    List String :=
  let indent : String := ⟨List.replicate indent_size ' '⟩
  let indent_line := indent ++ " * "
  let renderBlock : DocBlock → List String := fun block =>
    let text := maskLinks (javaDocBlockToString docRefs prefixTable block)
    (pySplitNl text).flatMap fun t =>
      (pyWrap 80 indent_line indent_line t).map unmaskLine
  let body :=
    match doc.blocks with
    | [] => []
    | b :: bs => renderBlock b ++ bs.flatMap (fun b' => (indent ++ " * <p>") :: renderBlock b')
  (indent ++ "/**") :: body ++ [indent ++ " */"]

/-- `JavaGenerator._format_javadoc` as the returned string. -/
def formatJavadoc (docRefs : List (String × DocRef))
    (prefixTable : List (String × String)) (doc : DocComment) (indent_size : Nat) : String :=
  String.join ((formatJavadocLines docRefs prefixTable doc indent_size).map (· ++ "\n"))

/-- `JavaGenerator.generate_class`: logs a warning and writes nothing
(result: produced files, emitted warnings). -/
def javaGenerateClass (d : ClassDefinition) : List (String × String) × List String :=
  ([], ["Class generation is not supported yet: " ++ d.name])

/-- The seven reference classifications produced by `_build_doc_ref`. -/
def docRefTypes : List String :=
  ["enum", "enum_value", "struct", "struct_field", "class", "class_method", "typedef"]

/-- Two characters related by a case change only. -/
def charCaseRel (a b : Char) : Prop := b = a.toUpper ∨ b = a.toLower

/-! ### Go renderer (`lib/go_generator.py`) -/

def GO_TYPE_MAP : List (String × String) :=
  [("unsigned int", "uint32"), ("int", "int32"), ("unsigned long", "uint32"),
   ("long", "int32"), ("unsigned long long", "uint64"), ("long long", "int64"),
   ("char", "string")]

def GO_TYPE_OVERRIDE : List (String × String) :=
  [("PacketLength", "time.Duration"), ("PacketInterleaving", "bool"),
   ("TargetLatency", "time.Duration"), ("LatencyTolerance", "time.Duration"),
   ("NoPlaybackTimeout", "time.Duration"), ("ChoppyPlaybackTimeout", "time.Duration"),
   ("ReuseAddress", "bool")]

/-- `textwrap.dedent`: longest common leading whitespace of the non-blank
lines, removed from every line that starts with it. -/
def leadWS (l : List Char) : List Char := l.takeWhile (fun c => c = ' ' ∨ c = '\t')

def commonPre : List Char → List Char → List Char
  | x :: xs, y :: ys => if x = y then x :: commonPre xs ys else []
  | _, _ => []

def dedentMargin (lines : List (List Char)) : Option (List Char) :=
  lines.foldl
    (fun acc l =>
      if stripL l = [] then acc
      else
        match acc with
        | none => some (leadWS l)
        | some m => some (commonPre m (leadWS l)))
    none

def pyDedent (s : String) : String :=
  let lines0 := splitOnCharL '\n' s.toList
  let lines := lines0.map (fun l =>
    if l ≠ [] ∧ l.all (fun c => c = ' ' ∨ c = '\t') then [] else l)
  let margin := (dedentMargin lines).getD []
  ⟨(lines.map (fun l => if margin.isPrefixOf l then l.drop margin.length else l)).intersperse
      ['\n'] |>.flatten⟩

/-- Python `str.lstrip()`. -/
def pyLstrip (s : String) : String := ⟨s.toList.dropWhile isPySpace⟩

/-- `_GO_COMMENT_OVERRIDE` of `lib/go_generator.py` (the raw triple-quoted
literals; `_get_go_comment` dedents and left-strips them). -/
def GO_COMMENT_OVERRIDE : List (String × String) :=
  [("ContextConfig",
    "\n        // Context configuration.\n        // You can zero-initialize this struct to get a default config.\n        // See also Context.\n    "),
   ("SenderConfig",
    "\n        // Sender configuration.\n        // You can zero-initialize this struct to get a default config.\n        // See also Sender.\n    "),
   ("ReceiverConfig",
    "\n        // Receiver configuration.\n        // You can zero-initialize this struct to get a default config.\n        // See also Receiver.\n    ")]

/-- `GoGenerator._doc_ref_to_string`. -/
def goDocRefToString (docRefs : List (String × DocRef)) (ref_value : String) : String :=
  match alookup ref_value docRefs with
  | none => ref_value
  | some ref =>
    if ref.type = "enum" then to_pascal_case (pyRemovePre ref.name "roc_")
    else if ref.type = "enum_value" then to_pascal_case (pyRemovePre ref.name "ROC_")
    else if ref.type = "struct" then to_pascal_case (pyRemovePre ref.name "roc_")
    else if ref.type = "struct_field" then to_pascal_case ref.name
    else if ref.type = "class" then to_pascal_case (pyRemovePre ref.name "roc_")
    else if ref.type = "class_method" ∧ ref.class_method_name = some "open" then
      "Open" ++ to_pascal_case (pyRemovePre (ref.class_name.getD "") "roc_") ++ "()"
    else if ref.type = "class_method" then
      to_pascal_case (pyRemovePre (ref.class_name.getD "") "roc_") ++ "."
        ++ to_pascal_case (ref.class_method_name.getD "") ++ "()"
    else if ref.type = "typedef" then to_pascal_case (pyRemovePre ref_value "roc_")
    else to_pascal_case (pyRemovePre ref_value "roc_")

mutual
/-- The per-item pieces of `GoGenerator._doc_block_to_string`. -/
def goItemStrings (docRefs : List (String × DocRef)) : List DocItem → List String
  | [] => []
  | i :: rest => goItemString docRefs i ++ goItemStrings docRefs rest

/-- One iteration of the item loop of `_doc_block_to_string`. -/
def goItemString (docRefs : List (String × DocRef)) : DocItem → List String
  | .mk t txt blocks =>
    if t = "text" ∨ t = "bold" ∨ t = "emphasis" then [txt.getD ""]
    else if t = "ref" ∨ t = "code" then [goDocRefToString docRefs (txt.getD "")]
    else if t = "see" then ["See"]
    else if t = "list" then ["\n" ++ goListItems docRefs blocks ++ "\n"]
    else []

/-- The list-item accumulation (`ul`) of the `list` branch. -/
def goListItems (docRefs : List (String × DocRef)) : List DocBlock → String
  | [] => ""
  | b :: bs => " - " ++ goDocBlockToString docRefs b ++ "\n" ++ goListItems docRefs bs

/-- `GoGenerator._doc_block_to_string`. -/
def goDocBlockToString (docRefs : List (String × DocRef)) : DocBlock → String
  | .mk items =>
    pyReplace (pyReplace (String.intercalate " " (goItemStrings docRefs items)) " ," ",")
      " ." "."
end

/-- `GoGenerator._format_comment`, as the list of produced lines. -/
def formatCommentLines (docRefs : List (String × DocRef)) (doc : DocComment)
    (indent : String) : List String :=
  let indent_line := indent ++ "// "
  let renderBlock : DocBlock → List String := fun block =>
    let text := goDocBlockToString docRefs block
    (pySplitNl text).flatMap fun t =>
      let subsequent := if strIsPre " - " t then indent_line ++ "   " else indent_line
      let t2 := pyReplace (pyReplace t "( " "(") " )" ")"
      pyWrap 80 indent_line subsequent t2
  match doc.blocks with
  | [] => []
  | b :: bs => renderBlock b ++ bs.flatMap (fun b' => pyRstrip indent_line :: renderBlock b')

/-- `GoGenerator._format_comment` as the returned string. -/
def goFormatComment (docRefs : List (String × DocRef)) (doc : DocComment)
    (indent : String) : String :=
  String.join ((formatCommentLines docRefs doc indent).map (· ++ "\n"))

/-- `GoGenerator._get_go_comment`. -/
def goGetGoComment (docRefs : List (String × DocRef)) (go_name : String)
    (doc : DocComment) : String :=
  match alookup go_name GO_COMMENT_OVERRIDE with
  | some v => pyLstrip (pyDedent v)
  | none => goFormatComment docRefs doc ""

/-- The per-field Go name computed in `GoGenerator.generate_struct`. -/
def goStructFieldName (f : StructField) : String :=
  to_pascal_case (pyRemovePre (pyLower f.name) "roc_")

/-- The per-field Go type computed in `GoGenerator.generate_struct`:
`roc`-namespaced translation first, then the per-field override, then the
primitive table, then the raw source type. -/
def goStructFieldType (f : StructField) : String :=
  if strIsPre "roc" f.type then to_pascal_case (pyRemovePre f.type "roc_")
  else
    match alookup (goStructFieldName f) GO_TYPE_OVERRIDE with
    | some v => v
    | none =>
      match alookup f.type GO_TYPE_MAP with
      | some v => v
      | none => f.type

/-- The generator provenance header (`self._autogen_comment`). -/
def autogenComment (g : GitInfo) : List String :=
  ["Code generated by bindgen.py from roc-streaming/bindgen",
   "roc-toolkit git tag: " ++ g.tag ++ ", commit: " ++ g.commit]

/-- The method-stub loop of `GoGenerator.generate_class`. -/
def goClassMethodStubs (docRefs : List (String × DocRef)) (class_name go_type_name : String) :
    List ClassMethod → String
  | [] => ""
  | mth :: rest =>
    let base0 := to_pascal_case (pyRemovePre mth.name (class_name ++ "_"))
    let go_method_name := if base0 = "Open" then base0 ++ go_type_name else base0
    goFormatComment docRefs mth.doc ""
      ++ ("func " ++ go_method_name ++ "() \x7b\n")
      ++ "// TODO: implement; fix signature\n" ++ "\x7d\n" ++ "\n"
      ++ goClassMethodStubs docRefs class_name go_type_name rest

/-- `GoGenerator.generate_class`: one dummy scaffold file (path, content);
the successive `class_file.write(...)` calls become concatenation, in order. -/
def goGenerateClass (docRefs : List (String × DocRef)) (g : GitInfo)
    (base_path : String) (d : ClassDefinition) : String × String :=
  let go_name := pyRemovePre d.name "roc_"
  let go_type_name := to_pascal_case go_name
  let path := base_path ++ "/roc/" ++ (go_name ++ "_DUMMY") ++ ".go"
  let content :=
    String.join ((autogenComment g).map (fun l => "// " ++ l ++ "\n"))
      ++ "\n" ++ "package roc\n\n"
      ++ goGetGoComment docRefs go_type_name d.doc ++ "//\n"
      ++ ("type " ++ go_type_name ++ " struct \x7b\n" ++ "\x7d\n" ++ "\n")
      ++ goClassMethodStubs docRefs d.name go_type_name d.methods
  (path, content)

/-! ### Concrete fixtures used by witnesses and counterexamples -/

def emptyDoc : DocComment := ⟨[]⟩

/-- A small definition set: two enums, one struct, one class, with one
documentation comment carrying two reference tokens. -/
def sampleDoc : DocComment :=
  ⟨[.mk [.mk "text" (some "Interface configuration for") [],
         .mk "ref" (some "ROC_INTERFACE_AUDIO_SOURCE") [],
         .mk "text" (some ", see also") [],
         .mk "ref" (some "roc_sender_connect()") [],
         .mk "text" (some ".") []]]⟩

def sampleModel : ApiModel where
  enums := [⟨"roc_interface", [⟨"ROC_INTERFACE_AUDIO_SOURCE", "11", emptyDoc⟩], sampleDoc⟩,
            ⟨"roc_protocol", [⟨"ROC_PROTO_RTSP", "1", emptyDoc⟩], emptyDoc⟩]
  structs := [⟨"roc_sender_config", [⟨"packet_length", "unsigned long long", emptyDoc⟩], emptyDoc⟩]
  classes := [⟨"roc_sender", [⟨"roc_sender_open", emptyDoc⟩, ⟨"roc_sender_connect", emptyDoc⟩],
               emptyDoc⟩]

/-- A definition set whose two enums have nested derived value sentinels
(`ROC_AB_` and `ROC_AB_C_`), declared in this order. -/
def nestedSentinelModel : ApiModel where
  enums := [⟨"roc_ab", [⟨"ROC_AB_X", "0", emptyDoc⟩], emptyDoc⟩,
            ⟨"roc_ab_c", [⟨"ROC_AB_C_D", "0", emptyDoc⟩], emptyDoc⟩]
  structs := []
  classes := []

/-- A reference token whose Go rendering is an atomic 84-column call
reference, wider than the 77 content columns of a top-level Go comment. -/
def longTok : String :=
  "roc_averylongclassname_averyveryveryveryveryveryveryveryveryveryveryverylongmethodname()"

def longTokRefs : List (String × DocRef) :=
  [(longTok, ⟨"class_method", longTok, none, none, some "roc_averylongclassname",
              some "averyveryveryveryveryveryveryveryveryveryveryverylongmethodname"⟩)]

def longTokDoc : DocComment := ⟨[.mk [.mk "ref" (some longTok) []]]⟩

/-! ## Theorems -/

/-- A string with a non-empty right append component is non-empty. -/
theorem append_right_ne_empty (a b : String) (hb : b.length ≠ 0) : a ++ b ≠ "" := by
  intro h
  have hl : (a ++ b).length = 0 := by rw [h]; rfl
  rw [String.length_append] at hl
  omega

/-- C4, counterexample: for a concrete class definition, the Java renderer's
`generate_class` emits no artifact at all (empty file list) — it only logs a
warning — contradicting "still emits a minimal scaffold artifact (a stable
output file), rather than emitting nothing". -/
theorem C4_counterexample :
    (javaGenerateClass ⟨"roc_sender", [⟨"roc_sender_open", emptyDoc⟩], emptyDoc⟩).1 = []
    ∧ (javaGenerateClass ⟨"roc_sender", [⟨"roc_sender_open", emptyDoc⟩], emptyDoc⟩).2
      = ["Class generation is not supported yet: roc_sender"] := by
  constructor
  · rfl
  · rfl

/-- C4, amended: for every class definition, the Go renderer's
`generate_class` emits one scaffold artifact — a stable `<name>_DUMMY.go` file
containing an empty struct type declaration — while the Java renderer's
`generate_class` emits nothing and only logs a "not supported yet" warning. -/
theorem C4_scaffold_behaviour (docRefs : List (String × DocRef)) (g : GitInfo)
    (base : String) (d : ClassDefinition) :
    javaGenerateClass d = ([], ["Class generation is not supported yet: " ++ d.name])
    ∧ (goGenerateClass docRefs g base d).1
      = base ++ "/roc/" ++ (pyRemovePre d.name "roc_" ++ "_DUMMY") ++ ".go"
    ∧ ∃ pre post, (goGenerateClass docRefs g base d).2
      = pre ++ ("type " ++ to_pascal_case (pyRemovePre d.name "roc_")
          ++ " struct \x7b\n" ++ "\x7d\n") ++ post := by
  refine ⟨rfl, rfl, ?_⟩
  refine ⟨String.join ((autogenComment g).map (fun l => "// " ++ l ++ "\n"))
      ++ "\n" ++ "package roc\n\n"
      ++ goGetGoComment docRefs (to_pascal_case (pyRemovePre d.name "roc_")) d.doc ++ "//\n",
    "\n" ++ goClassMethodStubs docRefs d.name (to_pascal_case (pyRemovePre d.name "roc_"))
      d.methods, ?_⟩
  simp only [goGenerateClass, String.append_assoc]

/-- C7, counterexample: in the Go renderer, a struct field whose translated
name is in the type-override table but whose declared type is `roc_`-namespaced
renders with the namespaced translation, not the override — the override does
not take precedence over the `roc_` rule. -/
theorem C7_counterexample :
    goStructFieldName ⟨"target_latency", "roc_foo", emptyDoc⟩ = "TargetLatency"
    ∧ alookup "TargetLatency" GO_TYPE_OVERRIDE = some "time.Duration"
    ∧ goStructFieldType ⟨"target_latency", "roc_foo", emptyDoc⟩ = "Foo"
    ∧ ("Foo" : String) ≠ "time.Duration" := by
  refine ⟨by decide, rfl, by decide, by decide⟩

/-- C7, amended: the Java renderer's field-type override table takes
precedence over both the `roc_` name-translation rule and the primitive type
table; the Go renderer's override table takes precedence over the primitive
table only (the `roc_` rule is checked first). In particular the integer field
`packet_length` renders as Java field `packetLength : Duration` and Go field
`PacketLength : time.Duration`. -/
theorem C7_override_precedence :
    (∀ (f : StructField) (ty : String),
      alookup (to_camel_case f.name) JAVA_TYPE_OVERRIDE = some ty →
      getJavaStructFieldType f = ty)
    ∧ (∀ (f : StructField) (ty : String),
      strIsPre "roc" f.type = false →
      alookup (goStructFieldName f) GO_TYPE_OVERRIDE = some ty →
      goStructFieldType f = ty)
    ∧ getJavaStructFieldName "packet_length" = "packetLength"
    ∧ getJavaStructFieldType ⟨"packet_length", "unsigned long long", emptyDoc⟩ = "Duration"
    ∧ goStructFieldName ⟨"packet_length", "unsigned long long", emptyDoc⟩ = "PacketLength"
    ∧ goStructFieldType ⟨"packet_length", "unsigned long long", emptyDoc⟩ = "time.Duration" := by
  refine ⟨?_, ?_, by decide, by decide, by decide, by decide⟩
  · intro f ty h
    simp [getJavaStructFieldType, h]
  · intro f ty hroc h
    simp [goStructFieldType, hroc, h]

/-- C7, witness for the amended theorem's hypotheses. -/
theorem C7_witness :
    (alookup (to_camel_case "packet_length") JAVA_TYPE_OVERRIDE = some "Duration")
    ∧ getJavaStructFieldType ⟨"packet_length", "unsigned long long", emptyDoc⟩ = "Duration" :=
  ⟨by decide, C7_override_precedence.1 ⟨"packet_length", "unsigned long long", emptyDoc⟩
    "Duration" (by decide)⟩

/-- C1, counterexample: with enums `roc_ab` and `roc_ab_c` declared in this
order, both derived sentinels `ROC_AB_` and `ROC_AB_C_` match the token
`ROC_AB_C_D`; the resolver classifies it as a value of `roc_ab` (the first
declared) with suffix `C_D`, not of `roc_ab_c` (the longest declared sentinel)
with suffix `D` — refuting "the longest/most specific declared prefix wins"
and, for the token `ROC_AB_C_D` of enum `roc_ab_c` with registered sentinel
`ROC_AB_C_`, refuting "owned by E with suffix equal to the token minus P". -/
theorem C1_counterexample :
    buildDocRefModel nestedSentinelModel "ROC_AB_C_D"
      = some ⟨"enum_value", "ROC_AB_C_D", some "roc_ab", some "C_D", none, none⟩
    ∧ alookup "roc_ab_c" (buildEnumPrefixesList nestedSentinelModel.enums) = some "ROC_AB_C_"
    ∧ alookup "roc_ab" (buildEnumPrefixesList nestedSentinelModel.enums) = some "ROC_AB_"
    ∧ strIsPre "ROC_AB_C_" "ROC_AB_C_D" = true
    ∧ strIsPre "ROC_AB_" "ROC_AB_C_D" = true
    ∧ "ROC_AB_".length < "ROC_AB_C_".length := by
  refine ⟨by decide, by decide, by decide, by decide, by decide, by decide⟩

/-- C1, amended: for a token beginning with `ROC_` that is not an exact
enum/struct/class name, the resolver classifies it as an `enum_value` owned by
the **first enum in declaration order** whose registered value sentinel is a
prefix of the token (not the longest), with suffix equal to the token minus
that enum's sentinel. -/
theorem C1_first_declared_sentinel_wins (m : ApiModel) (name en pre : String)
    (h0 : strIsPre "ROC_" name = true)
    (h1 : (enumNames m).contains name = false)
    (h2 : (structNames m).contains name = false)
    (h3 : (classNames m).contains name = false)
    (h4 : (buildEnumPrefixesList m.enums).find? (fun p => strIsPre p.2 name)
      = some (en, pre)) :
    buildDocRefModel m name
      = some ⟨"enum_value", name, some en, some (pyRemovePre name pre), none, none⟩ := by
  have h1' : name ∉ enumNames m := by simpa using h1
  have h2' : name ∉ structNames m := by simpa using h2
  have h3' : name ∉ classNames m := by simpa using h3
  unfold buildDocRefModel buildDocRef
  simp [h0, h1', h2', h3', h4]

/-- C1, witness: the amended theorem applied to the sample model and the
token `ROC_PROTO_RTSP` (odd declared sentinel of `roc_protocol`). -/
theorem C1_witness :
    (strIsPre "ROC_" "ROC_PROTO_RTSP" = true
      ∧ (enumNames sampleModel).contains "ROC_PROTO_RTSP" = false
      ∧ (structNames sampleModel).contains "ROC_PROTO_RTSP" = false
      ∧ (classNames sampleModel).contains "ROC_PROTO_RTSP" = false
      ∧ (buildEnumPrefixesList sampleModel.enums).find?
          (fun p => strIsPre p.2 "ROC_PROTO_RTSP") = some ("roc_protocol", "ROC_PROTO_"))
    ∧ buildDocRefModel sampleModel "ROC_PROTO_RTSP"
      = some ⟨"enum_value", "ROC_PROTO_RTSP", some "roc_protocol",
              some (pyRemovePre "ROC_PROTO_RTSP" "ROC_PROTO_"), none, none⟩ :=
  ⟨⟨by decide, by decide, by decide, by decide, by decide⟩,
   C1_first_declared_sentinel_wins sampleModel "ROC_PROTO_RTSP" "roc_protocol" "ROC_PROTO_"
     (by decide) (by decide) (by decide) (by decide) (by decide)⟩

/-- C3, counterexample: the token `roc_sender_open()` resolved as
`class_method` with class `roc_sender` and bare method `open` renders in Java
as `{@link RocSender()}`: the rendering contains no character `p`/`P` at all,
while every case-only rendition of the method name `open` contains one — so no
mechanically-derived form of M appears, refuting the claim for M = `open`. -/
theorem C3_counterexample :
    javaDocRefToString
      [("roc_sender_open()",
        ⟨"class_method", "roc_sender_open()", none, none, some "roc_sender", some "open"⟩)]
      (buildEnumPrefixesList sampleModel.enums) "roc_sender_open()"
      = "\x7b@link RocSender()\x7d"
    ∧ (∀ c ∈ "\x7b@link RocSender()\x7d".toList, c ≠ 'p' ∧ c ≠ 'P')
    ∧ 'p' ∈ "open".toList := by
  refine ⟨by decide, by decide, by decide⟩

/-- C3, amended: a `class_method` reference with owning class C and bare
method M renders, in Java, as `{@link <javaClass C>#<camel M>()}` when
M ≠ `open` and as `{@link <javaClass C>()}` (class form only, no form of M)
when M = `open`; in Go it renders as `<pascal C'>.<pascal M>()` when
M ≠ `open` and as `Open<pascal C'>()` when M = `open` (C' = C minus `roc_`),
so both derived forms appear except in the Java `open` case. -/
theorem C3_class_method_rendering (docRefs : List (String × DocRef))
    (prefixTable : List (String × String)) (tok C M : String) (ref : DocRef)
    (h : alookup tok docRefs = some ref) (ht : ref.type = "class_method")
    (hc : ref.class_name = some C) (hm : ref.class_method_name = some M) :
    (M ≠ "open" →
      javaDocRefToString docRefs prefixTable tok
        = "\x7b@link " ++ (getJavaClassName C ++ "#" ++ getJavaClassMethodName M ++ "()") ++ "\x7d"
      ∧ goDocRefToString docRefs tok
        = to_pascal_case (pyRemovePre C "roc_") ++ "." ++ to_pascal_case M ++ "()")
    ∧ (M = "open" →
      javaDocRefToString docRefs prefixTable tok
        = "\x7b@link " ++ (getJavaClassName C ++ "()") ++ "\x7d"
      ∧ goDocRefToString docRefs tok
        = "Open" ++ to_pascal_case (pyRemovePre C "roc_") ++ "()") := by
  constructor
  · intro hne
    constructor
    · have hlink : getJavaClassName C ++ "#" ++ getJavaClassMethodName M ++ "()" ≠ "" := by
        apply append_right_ne_empty
        decide
      simp [javaDocRefToString, h, ht, hc, hm, hne, hlink]
    · simp [goDocRefToString, h, ht, hc, hm, hne]
  · intro heq
    constructor
    · have hlink : getJavaClassName C ++ "()" ≠ "" := by
        apply append_right_ne_empty
        decide
      simp [javaDocRefToString, h, ht, hc, hm, heq, hlink]
    · simp [goDocRefToString, h, ht, hc, hm, heq]

/-- C3, witness: the amended theorem applied to a concrete resolved
`class_method` reference with M ≠ `open`. -/
theorem C3_witness :
    (alookup "roc_sender_connect()" (buildDocRefs sampleModel)
        = some ⟨"class_method", "roc_sender_connect()", none, none, some "roc_sender",
                some "connect"⟩)
    ∧ (("connect" : String) ≠ "open" →
      javaDocRefToString (buildDocRefs sampleModel) (buildEnumPrefixesList sampleModel.enums)
          "roc_sender_connect()"
        = "\x7b@link " ++ (getJavaClassName "roc_sender" ++ "#"
            ++ getJavaClassMethodName "connect" ++ "()") ++ "\x7d"
      ∧ goDocRefToString (buildDocRefs sampleModel) "roc_sender_connect()"
        = to_pascal_case (pyRemovePre "roc_sender" "roc_") ++ "."
            ++ to_pascal_case "connect" ++ "()") :=
  ⟨by decide,
   (C3_class_method_rendering (buildDocRefs sampleModel)
     (buildEnumPrefixesList sampleModel.enums) "roc_sender_connect()" "roc_sender" "connect"
     ⟨"class_method", "roc_sender_connect()", none, none, some "roc_sender", some "connect"⟩
     (by decide) (by decide) (by decide) (by decide)).1⟩

/-- `alookup` over an append prefers the left list. -/
theorem alookup_append {a : Type} (k : String) (xs ys : List (String × a)) :
    alookup k (xs ++ ys)
      = match alookup k xs with | some v => some v | none => alookup k ys := by
  induction xs with
  | nil => simp [alookup]
  | cons p rest ih =>
    by_cases hk : p.1 = k
    · simp [alookup, hk]
    · simp [alookup, hk, ih]

/-- An `insertToken` step never changes an existing cache entry. -/
theorem insertToken_preserves (m : ApiModel) (acc : List (String × DocRef))
    (tok t : String) (r : DocRef) (h : alookup t acc = some r) :
    alookup t (insertToken m acc tok) = some r := by
  unfold insertToken
  by_cases hc : (alookup tok acc).isSome
  · rw [if_pos hc]; exact h
  · rw [if_neg hc]
    cases hb : buildDocRefModel m tok with
    | none => exact h
    | some r' => rw [alookup_append, h]

/-- The whole index-building fold never changes an existing cache entry. -/
theorem foldl_insert_preserves (m : ApiModel) :
    ∀ (toks : List String) (acc : List (String × DocRef)) (t : String) (r : DocRef),
      alookup t acc = some r → alookup t (toks.foldl (insertToken m) acc) = some r := by
  intro toks
  induction toks with
  | nil => intro acc t r h; exact h
  | cons tok rest ih =>
    intro acc t r h
    exact ih (insertToken m acc tok) t r (insertToken_preserves m acc tok t r h)

/-- An `insertToken` step only caches values of `_build_doc_ref`. -/
theorem insertToken_sound (m : ApiModel) (acc : List (String × DocRef)) (tok : String)
    (hacc : ∀ t r, alookup t acc = some r → buildDocRefModel m t = some r) :
    ∀ t r, alookup t (insertToken m acc tok) = some r → buildDocRefModel m t = some r := by
  intro t r h
  unfold insertToken at h
  by_cases hc : (alookup tok acc).isSome
  · rw [if_pos hc] at h; exact hacc t r h
  · rw [if_neg hc] at h
    cases hb : buildDocRefModel m tok with
    | none => rw [hb] at h; exact hacc t r h
    | some r' =>
      rw [hb, alookup_append] at h
      cases ha : alookup t acc with
      | some v => rw [ha] at h; exact hacc t r (ha.trans h)
      | none =>
        rw [ha] at h
        simp only [alookup] at h
        by_cases hk : tok = t
        · subst hk
          rw [if_pos rfl] at h
          rw [hb]
          exact congrArg some (Option.some.inj h)
        · rw [if_neg hk] at h
          exact absurd h (by simp)

/-- The cache built by the fold only holds values of `_build_doc_ref`. -/
theorem foldl_insert_sound (m : ApiModel) :
    ∀ (toks : List String) (acc : List (String × DocRef)),
      (∀ t r, alookup t acc = some r → buildDocRefModel m t = some r) →
      ∀ t r, alookup t (toks.foldl (insertToken m) acc) = some r →
        buildDocRefModel m t = some r := by
  intro toks
  induction toks with
  | nil => intro acc hacc t r h; exact hacc t r h
  | cons tok rest ih =>
    intro acc hacc t r h
    exact ih (insertToken m acc tok) (insertToken_sound m acc tok hacc) t r h

/-- A token `_build_doc_ref` rejects is never added to the cache. -/
theorem foldl_insert_absent (m : ApiModel) :
    ∀ (toks : List String) (acc : List (String × DocRef)) (t : String),
      buildDocRefModel m t = none → alookup t acc = none →
      alookup t (toks.foldl (insertToken m) acc) = none := by
  intro toks
  induction toks with
  | nil => intro acc t _ h; exact h
  | cons tok rest ih =>
    intro acc t hb h
    apply ih (insertToken m acc tok) t hb
    unfold insertToken
    by_cases hc : (alookup tok acc).isSome
    · rw [if_pos hc]; exact h
    · rw [if_neg hc]
      cases hb' : buildDocRefModel m tok with
      | none => exact h
      | some r' =>
        rw [alookup_append, h]
        simp only [alookup]
        by_cases hk : tok = t
        · subst hk; rw [hb'] at hb; exact absurd hb (by simp)
        · rw [if_neg hk]

/-- Memoisation is transparent: once the invariant holds for the accumulator,
looking a visited token up in the finished cache gives exactly what a fresh
run of `_build_doc_ref` gives. -/
theorem memo_lookup (m : ApiModel) :
    ∀ (toks : List String) (acc : List (String × DocRef)) (t : String),
      (∀ t' r', alookup t' acc = some r' → buildDocRefModel m t' = some r') →
      t ∈ toks →
      alookup t (toks.foldl (insertToken m) acc) = buildDocRefModel m t := by
  intro toks
  induction toks with
  | nil => intro acc t _ ht; cases ht
  | cons tok rest ih =>
    intro acc t hacc ht
    have hacc' := insertToken_sound m acc tok hacc
    rcases List.mem_cons.mp ht with rfl | hrest
    · cases ha : alookup t acc with
      | some r =>
        have hb := hacc t r ha
        rw [hb]
        exact foldl_insert_preserves m rest (insertToken m acc t) t r
          (insertToken_preserves m acc t t r ha)
      | none =>
        cases hb : buildDocRefModel m t with
        | some r =>
          rw [List.foldl_cons]
          apply foldl_insert_preserves m rest (insertToken m acc t) t r
          unfold insertToken
          rw [ha]
          simp [hb, alookup_append, ha, alookup]
        | none =>
          rw [List.foldl_cons]
          apply foldl_insert_absent m rest (insertToken m acc t) t hb
          unfold insertToken
          rw [ha]
          simp only [Option.isSome_none, Bool.false_eq_true, if_false, hb]
          exact ha
    · exact ih (insertToken m acc tok) t hacc' hrest

/-- C5: resolution is memoized per token and the memo is transparent — for
every token that occurs as a `ref`/`code` item anywhere in the model, looking
it up in the index built by `_build_doc_refs` yields exactly the result of
classifying that token text with `_build_doc_ref`; hence any two `DocItem`s
carrying the identical token text resolve to the identical `DocRef` within
one run. -/
theorem C5_memoized_resolution (m : ApiModel) (t : String) (h : t ∈ modelTokens m) :
    alookup t (buildDocRefs m) = buildDocRefModel m t := by
  unfold buildDocRefs
  exact memo_lookup m (modelTokens m) [] t (by intro t' r' h'; simp [alookup] at h') h

/-- C5, witness: a token of the sample model. -/
theorem C5_witness :
    ("ROC_INTERFACE_AUDIO_SOURCE" ∈ modelTokens sampleModel)
    ∧ alookup "ROC_INTERFACE_AUDIO_SOURCE" (buildDocRefs sampleModel)
      = buildDocRefModel sampleModel "ROC_INTERFACE_AUDIO_SOURCE" :=
  ⟨by decide, C5_memoized_resolution sampleModel "ROC_INTERFACE_AUDIO_SOURCE" (by decide)⟩

/-- Every successful classification names the token itself and one of the
seven reference categories. -/
theorem buildDocRef_shape (enums structs classes : List String)
    (pt : List (String × String)) (fns : List String) (name : String) (r : DocRef)
    (h : buildDocRef enums structs classes pt fns name = some r) :
    r.name = name ∧ r.type ∈ docRefTypes := by
  unfold buildDocRef at h
  repeat' split at h
  all_goals (try (simp only [Option.some.injEq] at h))
  all_goals first
    | (rw [← h]; refine ⟨rfl, ?_⟩; simp [docRefTypes])
    | (exact absurd h (by simp))

/-- C9: invariant of the resolved reference index — every cached entry maps a
key to a `DocRef` whose `name` equals the key and whose `type` is one of the
seven tags, and is exactly the value `_build_doc_ref` gives for that key;
unclassifiable tokens are never stored, so for every token occurring in the
model, presence in the index is equivalent to being resolvable. -/
theorem C9_doc_refs_invariant (m : ApiModel) :
    (∀ t r, alookup t (buildDocRefs m) = some r →
      r.name = t ∧ r.type ∈ docRefTypes ∧ buildDocRefModel m t = some r)
    ∧ (∀ t, t ∈ modelTokens m →
      ((alookup t (buildDocRefs m)).isSome ↔ (buildDocRefModel m t).isSome)) := by
  constructor
  · intro t r h
    have hb : buildDocRefModel m t = some r := by
      unfold buildDocRefs at h
      exact foldl_insert_sound m (modelTokens m) []
        (by intro t' r' h'; simp [alookup] at h') t r h
    have hshape := buildDocRef_shape (enumNames m) (structNames m) (classNames m)
      (buildEnumPrefixesList m.enums) (structFieldNames m.structs) t r hb
    exact ⟨hshape.1, hshape.2, hb⟩
  · intro t ht
    have hm : alookup t (buildDocRefs m) = buildDocRefModel m t := by
      unfold buildDocRefs
      exact memo_lookup m (modelTokens m) [] t (by intro t' r' h'; simp [alookup] at h') ht
    rw [hm]

/-- C9, witness. -/
theorem C9_witness :
    (alookup "ROC_INTERFACE_AUDIO_SOURCE" (buildDocRefs sampleModel)
        = some ⟨"enum_value", "ROC_INTERFACE_AUDIO_SOURCE", some "roc_interface",
                some "AUDIO_SOURCE", none, none⟩)
    ∧ (⟨"enum_value", "ROC_INTERFACE_AUDIO_SOURCE", some "roc_interface",
        some "AUDIO_SOURCE", none, none⟩ : DocRef).name = "ROC_INTERFACE_AUDIO_SOURCE"
    ∧ (⟨"enum_value", "ROC_INTERFACE_AUDIO_SOURCE", some "roc_interface",
        some "AUDIO_SOURCE", none, none⟩ : DocRef).type ∈ docRefTypes
    ∧ buildDocRefModel sampleModel "ROC_INTERFACE_AUDIO_SOURCE"
      = some ⟨"enum_value", "ROC_INTERFACE_AUDIO_SOURCE", some "roc_interface",
              some "AUDIO_SOURCE", none, none⟩ :=
  ⟨by decide, (C9_doc_refs_invariant sampleModel).1 "ROC_INTERFACE_AUDIO_SOURCE" _ (by decide)⟩

/-- C6: `_build_doc_ref` is total by construction (an `Option`-valued
function: every token yields `some` classification or `none`), an unresolvable
token is never stored in the index, and both renderers fall back on it — Java
emits an inline code span equal to the original token, Go emits the original
token as plain text. -/
theorem C6_unresolved_is_terminal (m : ApiModel) (prefixTable : List (String × String))
    (t : String) (h : buildDocRefModel m t = none) :
    alookup t (buildDocRefs m) = none
    ∧ javaDocRefToString (buildDocRefs m) prefixTable t = "\x7b@code " ++ t ++ "\x7d"
    ∧ goDocRefToString (buildDocRefs m) t = t := by
  have habs : alookup t (buildDocRefs m) = none := by
    unfold buildDocRefs
    exact foldl_insert_absent m (modelTokens m) [] t h rfl
  refine ⟨habs, ?_, ?_⟩
  · simp [javaDocRefToString, habs]
  · simp [goDocRefToString, habs]

/-- C6, witness: an ordinary prose-like word resolves to nothing and falls
back in both renderers. -/
theorem C6_witness :
    (buildDocRefModel sampleModel "just_a_word" = none)
    ∧ alookup "just_a_word" (buildDocRefs sampleModel) = none
    ∧ javaDocRefToString (buildDocRefs sampleModel) (buildEnumPrefixesList sampleModel.enums)
        "just_a_word" = "\x7b@code " ++ "just_a_word" ++ "\x7d"
    ∧ goDocRefToString (buildDocRefs sampleModel) "just_a_word" = "just_a_word" :=
  ⟨by decide, C6_unresolved_is_terminal sampleModel (buildEnumPrefixesList sampleModel.enums)
    "just_a_word" (by decide)⟩

/-- Characters relate to their lowercase images by a case change. -/
theorem forall2_lower (l : List Char) : List.Forall₂ charCaseRel l (l.map Char.toLower) := by
  induction l with
  | nil => exact List.Forall₂.nil
  | cons c cs ih => exact List.Forall₂.cons (Or.inr rfl) ih

/-- `str.capitalize` changes only letter case, character by character. -/
theorem forall2_capitalize (l : List Char) : List.Forall₂ charCaseRel l (pyCapitalizeL l) := by
  cases l with
  | nil => exact List.Forall₂.nil
  | cons c cs => exact List.Forall₂.cons (Or.inl rfl) (forall2_lower cs)

theorem forall2_map_capitalize (segs : List (List Char)) :
    List.Forall₂ (List.Forall₂ charCaseRel) segs (segs.map pyCapitalizeL) := by
  induction segs with
  | nil => exact List.Forall₂.nil
  | cons s ss ih => exact List.Forall₂.cons (forall2_capitalize s) ih

/-- Python `split` never returns an empty list of segments. -/
theorem splitOnCharL_ne_nil (sep : Char) (l : List Char) : splitOnCharL sep l ≠ [] := by
  induction l with
  | nil => simp [splitOnCharL]
  | cons c cs ih =>
    unfold splitOnCharL
    by_cases h : c = sep
    · simp [h]
    · rw [if_neg h]
      cases hs : splitOnCharL sep cs with
      | nil => simp
      | cons s ss => simp

/-- Case-conversion preserves each underscore-delimited segment of a string
with non-empty segments: the output is the concatenation, in order, of the
input segments with only letter case changed. -/
theorem case_conversion_segmentwise (s : String)
    (hseg : ∀ seg ∈ splitOnCharL '_' s.toList, seg ≠ []) :
    (∃ out, (to_pascal_case s).toList = out.flatten
      ∧ List.Forall₂ (List.Forall₂ charCaseRel) (splitOnCharL '_' s.toList) out)
    ∧ (∃ out, (to_camel_case s).toList = out.flatten
      ∧ List.Forall₂ (List.Forall₂ charCaseRel) (splitOnCharL '_' s.toList) out) := by
  constructor
  · exact ⟨(splitOnCharL '_' s.toList).map pyCapitalizeL, rfl,
      forall2_map_capitalize (splitOnCharL '_' s.toList)⟩
  · cases hn : s.toList with
    | nil =>
      exfalso
      have : ([] : List Char) ∈ splitOnCharL '_' s.toList := by
        rw [hn]; simp [splitOnCharL]
      exact hseg [] this rfl
    | cons c rest =>
      have hc : ¬ c = '_' := by
        intro hceq
        have : ([] : List Char) ∈ splitOnCharL '_' s.toList := by
          rw [hn, hceq]; simp [splitOnCharL]
        exact hseg [] this rfl
      obtain ⟨s0, ss, hs⟩ : ∃ s0 ss, splitOnCharL '_' rest = s0 :: ss := by
        cases hs' : splitOnCharL '_' rest with
        | nil => exact absurd hs' (splitOnCharL_ne_nil '_' rest)
        | cons a b => exact ⟨a, b, rfl⟩
      have hsplit : splitOnCharL '_' s.toList = (c :: s0) :: ss := by
        rw [hn]
        unfold splitOnCharL
        rw [if_neg hc, hs]
      have hpascal : (to_pascal_case s).toList
          = Char.toUpper c :: (s0.map Char.toLower ++ (ss.map pyCapitalizeL).flatten) := by
        show ((splitOnCharL '_' s.toList).map pyCapitalizeL).flatten = _
        rw [hsplit]
        simp [pyCapitalizeL]
      have hcamel : (to_camel_case s).toList
          = Char.toLower c :: (s0.map Char.toLower ++ (ss.map pyCapitalizeL).flatten) := by
        unfold to_camel_case
        rw [hn]
        show Char.toLower c :: (to_pascal_case s).toList.drop 1 = _
        rw [hpascal]
        rfl
      refine ⟨(Char.toLower c :: s0.map Char.toLower) :: ss.map pyCapitalizeL, ?_, ?_⟩
      · rw [hcamel]
        simp
      · have hsplit2 := hsplit
        rw [hn] at hsplit2
        rw [hsplit2]
        exact List.Forall₂.cons (List.Forall₂.cons (Or.inr rfl) (forall2_lower s0))
          (forall2_map_capitalize ss)

/-- C8: for every namespaced identifier whose underscore-delimited segments
(after stripping the `roc_` namespace) are non-empty, stripping the prefix and
applying `to_pascal_case` or `to_camel_case` never drops or reorders
characters within a segment — the output is the concatenation of the input's
segments, in order, each with only letter case changed. -/
theorem C8_case_conversion_preserves_segments (name : String)
    (hseg : ∀ seg ∈ splitOnCharL '_' (pyRemovePre name "roc_").toList, seg ≠ []) :
    (∃ out, (to_pascal_case (pyRemovePre name "roc_")).toList = out.flatten
      ∧ List.Forall₂ (List.Forall₂ charCaseRel)
          (splitOnCharL '_' (pyRemovePre name "roc_").toList) out)
    ∧ (∃ out, (to_camel_case (pyRemovePre name "roc_")).toList = out.flatten
      ∧ List.Forall₂ (List.Forall₂ charCaseRel)
          (splitOnCharL '_' (pyRemovePre name "roc_").toList) out) :=
  case_conversion_segmentwise (pyRemovePre name "roc_") hseg

/-- C8, witness. -/
theorem C8_witness :
    (∀ seg ∈ splitOnCharL '_' (pyRemovePre "roc_packet_length" "roc_").toList, seg ≠ [])
    ∧ ((∃ out, (to_pascal_case (pyRemovePre "roc_packet_length" "roc_")).toList = out.flatten
        ∧ List.Forall₂ (List.Forall₂ charCaseRel)
            (splitOnCharL '_' (pyRemovePre "roc_packet_length" "roc_").toList) out)
      ∧ (∃ out, (to_camel_case (pyRemovePre "roc_packet_length" "roc_")).toList = out.flatten
        ∧ List.Forall₂ (List.Forall₂ charCaseRel)
            (splitOnCharL '_' (pyRemovePre "roc_packet_length" "roc_").toList) out)) :=
  ⟨by decide, C8_case_conversion_preserves_segments "roc_packet_length" (by decide)⟩

theorem eraseItems_append (a b : List DocItem) :
    eraseItems (a ++ b) = eraseItems a ++ eraseItems b := by
  induction a with
  | nil => simp [eraseItems]
  | cons i is ih => simp [eraseItems, ih]

theorem tailItems_erase (tl : Option String) : tailItemsL tl = eraseItems (tailItems tl) := by
  cases tl with
  | none => rfl
  | some s =>
    show (if s ≠ "" ∧ pyStrip s ≠ "" then [LDocItem.mk "text" (some (pyStrip s)) []] else [])
      = eraseItems (if s ≠ "" ∧ pyStrip s ≠ "" then [DocItem.mk "text" (some (pyStrip s)) []]
          else [])
    split_ifs <;> simp [eraseItems, eraseItem, eraseBlocks]

/-- The legacy and current parsers agree, at every recursion depth, modulo
forgetting the `DocBlock` wrapper around each list entry. -/
theorem parse_equiv_aux : ∀ n : Nat,
    (∀ e : Elem, sizeOf e ≤ n → parseDocElemLegacy e = eraseItems (parseDocElem e)) ∧
    (∀ es : List Elem, sizeOf es ≤ n → parseChildrenLegacy es = eraseItems (parseChildren es)) ∧
    (∀ es : List Elem, sizeOf es ≤ n → parseListValues es = eraseBlocks (parseListBlocks es)) ∧
    (∀ es : List Elem, sizeOf es ≤ n → parseInsideLiLegacy es = eraseItems (parseInsideLi es)) := by
  intro n
  induction n with
  | zero =>
    refine ⟨?_, ?_, ?_, ?_⟩
    · intro e he; exfalso; cases e; simp at he
    · intro es he; exfalso; cases es <;> simp at he
    · intro es he; exfalso; cases es <;> simp at he
    · intro es he; exfalso; cases es <;> simp at he
  | succ n ih =>
    obtain ⟨ihE, ihC, ihL, ihI⟩ := ih
    refine ⟨?_, ?_, ?_, ?_⟩
    · intro e he
      cases e with
      | mk tag kindAttr txt tl children =>
        have hch : sizeOf children ≤ n := by
          simp only [Elem.mk.sizeOf_spec] at he; omega
        unfold parseDocElemLegacy parseDocElem
        cases ht : stripText txt with
        | none =>
          simp only [ht, apply_ite eraseItems, eraseItems_append, ihC children hch,
            ihL children hch, eraseItems, eraseItem, eraseBlocks]
        | some t =>
          simp only [ht, apply_ite eraseItems, eraseItems_append, ihC children hch,
            ihL children hch, eraseItems, eraseItem, eraseBlocks]
    · intro es he
      cases es with
      | nil => rfl
      | cons e rest =>
        have h1 : sizeOf e ≤ n := by
          simp only [List.cons.sizeOf_spec] at he; omega
        have h2 : sizeOf rest ≤ n := by
          simp only [List.cons.sizeOf_spec] at he; omega
        show parseDocElemLegacy e ++ tailItemsL e.tail ++ parseChildrenLegacy rest
          = eraseItems (parseDocElem e ++ tailItems e.tail ++ parseChildren rest)
        rw [eraseItems_append, eraseItems_append, ihE e h1, tailItems_erase, ihC rest h2]
    · intro es he
      cases es with
      | nil => rfl
      | cons e rest =>
        cases e with
        | mk tag kindAttr txt tl cs =>
          have h1 : sizeOf cs ≤ n := by
            simp only [List.cons.sizeOf_spec, Elem.mk.sizeOf_spec] at he; omega
          have h2 : sizeOf rest ≤ n := by
            simp only [List.cons.sizeOf_spec, Elem.mk.sizeOf_spec] at he; omega
          show (if tag = "listitem" then parseInsideLiLegacy cs :: parseListValues rest
                else parseListValues rest)
            = eraseBlocks (if tag = "listitem"
                then DocBlock.mk (parseInsideLi cs) :: parseListBlocks rest
                else parseListBlocks rest)
          rw [apply_ite eraseBlocks]
          by_cases htag : tag = "listitem"
          · simp only [htag, if_pos rfl, eraseBlocks, eraseBlock, ihI cs h1, ihL rest h2]
          · simp only [if_neg htag, ihL rest h2]
    · intro es he
      cases es with
      | nil => rfl
      | cons e rest =>
        have h1 : sizeOf e ≤ n := by
          simp only [List.cons.sizeOf_spec] at he; omega
        have h2 : sizeOf rest ≤ n := by
          simp only [List.cons.sizeOf_spec] at he; omega
        show parseDocElemLegacy e ++ parseInsideLiLegacy rest
          = eraseItems (parseDocElem e ++ parseInsideLi rest)
        rw [eraseItems_append, ihE e h1, ihI rest h2]

/-- C10: on every documentation XML element, the legacy parser
`parse_doc_elem` of `generate_bindings.py` and the current parser
`_parse_doc_elem` of `lib/doxygen_parser.py` produce equivalent item
sequences — identical item types, texts and order, with list entries carrying
identical nested sequences, modulo the `DocBlock` wrapper that only the
current model puts around each list entry (the `eraseItem` forgetful map). -/
theorem C10_parsers_equivalent (e : Elem) :
    parseDocElemLegacy e = eraseItems (parseDocElem e) :=
  (parse_equiv_aux (sizeOf e)).1 e le_rfl

theorem sumLens_foldl_shift (gs : List (List Char)) :
    ∀ a : Int, gs.foldl (fun x g => x + (g.length : Int)) a
      = a + gs.foldl (fun x g => x + (g.length : Int)) 0 := by
  induction gs with
  | nil => intro a; simp
  | cons g rest ih =>
    intro a
    simp only [List.foldl_cons]
    rw [ih (a + g.length), ih ((0 : Int) + g.length)]
    ring

theorem sumLens_cons (g : List Char) (gs : List (List Char)) :
    sumLens (g :: gs) = (g.length : Int) + sumLens gs := by
  unfold sumLens
  simp only [List.foldl_cons]
  rw [sumLens_foldl_shift gs ((0 : Int) + g.length)]
  ring

theorem sumLens_nonneg (gs : List (List Char)) : 0 ≤ sumLens gs := by
  induction gs with
  | nil => simp [sumLens]
  | cons g rest ih =>
    rw [sumLens_cons]
    have : (0 : Int) ≤ (g.length : Int) := Int.natCast_nonneg _
    omega

theorem sumLens_append (a b : List (List Char)) :
    sumLens (a ++ b) = sumLens a + sumLens b := by
  induction a with
  | nil => simp [sumLens]
  | cons g rest ih => rw [List.cons_append, sumLens_cons, sumLens_cons, ih]; ring

theorem flatten_length_int (gs : List (List Char)) :
    ((gs.flatten.length : Nat) : Int) = sumLens gs := by
  induction gs with
  | nil => simp [sumLens]
  | cons g rest ih => rw [List.flatten_cons, sumLens_cons, List.length_append]; omega

/-- The greedy fill never exceeds the line width: either nothing was taken or
the accumulated length stays within the width. -/
theorem greedyFill_bound (lw : Int) :
    ∀ (gs : List (List Char)) (curLen : Int),
      (greedyFill lw curLen gs).1 = [] ∨ curLen + sumLens (greedyFill lw curLen gs).1 ≤ lw := by
  intro gs
  induction gs with
  | nil => intro curLen; left; rfl
  | cons g rest ih =>
    intro curLen
    simp only [greedyFill]
    by_cases hfit : (curLen + (g.length : Int)) ≤ lw
    · rw [if_pos hfit]
      rcases ih (curLen + g.length) with hnil | hle
      · right
        simp only [hnil, sumLens_cons]
        have hemp : sumLens ([] : List (List Char)) = 0 := rfl
        omega
      · right
        simp only [sumLens_cons]
        omega
    · rw [if_neg hfit]; left; rfl

/-- `_handle_long_word` keeps the current line within the width. -/
theorem handleLong_bound (lw curLen : Int) (cur rest : List (List Char))
    (hlw : 1 ≤ lw) (hcur : sumLens cur ≤ lw) (hlen : curLen = sumLens cur) :
    sumLens (handleLong lw curLen cur rest).1 ≤ lw := by
  cases rest with
  | nil => exact hcur
  | cons h t =>
    simp only [handleLong]
    by_cases hlong : ((h.length : Nat) : Int) > lw
    · rw [if_pos hlong]
      have hnlt : ¬ lw < 1 := by omega
      rw [if_neg hnlt]
      simp only [sumLens_append, sumLens_cons]
      have hnn : 0 ≤ lw - curLen := by
        have := sumLens_nonneg cur
        omega
      have htake : ((h.take (lw - curLen).toNat).length : Int)
          ≤ (((lw - curLen).toNat : Nat) : Int) := by
        have := List.length_take_le (lw - curLen).toNat h
        omega
      have htn : (((lw - curLen).toNat : Nat) : Int) = lw - curLen := Int.toNat_of_nonneg hnn
      have hemp : sumLens ([] : List (List Char)) = 0 := rfl
      omega
    · rw [if_neg hlong]; exact hcur

/-- Dropping the trailing whitespace chunk never lengthens the line. -/
theorem dropTrailingWS_bound (cur : List (List Char)) :
    sumLens (dropTrailingWS cur) ≤ sumLens cur := by
  cases hrev : cur.reverse with
  | nil =>
    simp only [dropTrailingWS, hrev]
    exact le_refl _
  | cons last front =>
    simp only [dropTrailingWS, hrev]
    by_cases hsp : chunkAllSpace last = true
    · rw [if_pos hsp]
      have hcur : cur = front.reverse ++ [last] := by
        have := congrArg List.reverse hrev
        simpa using this
      rw [hcur, sumLens_append, sumLens_cons]
      have h1 : (0 : Int) ≤ (last.length : Int) := Int.natCast_nonneg _
      have h2 : sumLens ([] : List (List Char)) = 0 := rfl
      omega
    · rw [if_neg hsp]

/-- A line emitted by one iteration of the wrap loop fits the width. -/
theorem wrap_emit_bound (width : Int) (ind : List Char) (chunks1 : List (List Char))
    (hind : (ind.length : Int) + 1 ≤ width) :
    ((ind ++ (dropTrailingWS (handleLong (width - (ind.length : Int))
        (sumLens (greedyFill (width - (ind.length : Int)) 0 chunks1).1)
        (greedyFill (width - (ind.length : Int)) 0 chunks1).1
        (greedyFill (width - (ind.length : Int)) 0 chunks1).2).1).flatten).length : Int)
      ≤ width := by
  have hlw : (1 : Int) ≤ width - (ind.length : Int) := by omega
  have hg : sumLens (greedyFill (width - (ind.length : Int)) 0 chunks1).1
      ≤ width - (ind.length : Int) := by
    rcases greedyFill_bound (width - (ind.length : Int)) chunks1 0 with h | h
    · rw [h]
      have hemp : sumLens ([] : List (List Char)) = 0 := rfl
      omega
    · omega
  have hh := handleLong_bound (width - (ind.length : Int))
    (sumLens (greedyFill (width - (ind.length : Int)) 0 chunks1).1)
    (greedyFill (width - (ind.length : Int)) 0 chunks1).1
    (greedyFill (width - (ind.length : Int)) 0 chunks1).2 hlw hg rfl
  have hd := dropTrailingWS_bound (handleLong (width - (ind.length : Int))
    (sumLens (greedyFill (width - (ind.length : Int)) 0 chunks1).1)
    (greedyFill (width - (ind.length : Int)) 0 chunks1).1
    (greedyFill (width - (ind.length : Int)) 0 chunks1).2).1
  have hfl := flatten_length_int (dropTrailingWS (handleLong (width - (ind.length : Int))
    (sumLens (greedyFill (width - (ind.length : Int)) 0 chunks1).1)
    (greedyFill (width - (ind.length : Int)) 0 chunks1).1
    (greedyFill (width - (ind.length : Int)) 0 chunks1).2).1)
  rw [List.length_append]
  omega

/-- Every line produced by the wrap loop fits the width, provided both
indents leave at least one content column. -/
theorem wrapChunksLoop_le (width : Int) (initInd subInd : List Char)
    (hi : (initInd.length : Int) + 1 ≤ width) (hs : (subInd.length : Int) + 1 ≤ width) :
    ∀ (fuel : Nat) (chunks acc : List (List Char)),
      (∀ l ∈ acc, (l.length : Int) ≤ width) →
      ∀ l ∈ wrapChunksLoop width fuel initInd subInd chunks acc, (l.length : Int) ≤ width := by
  intro fuel
  induction fuel with
  | zero =>
    intro chunks acc hacc l hl
    simp only [wrapChunksLoop] at hl
    exact hacc l hl
  | succ fuel ih =>
    intro chunks acc hacc l hl
    cases chunks with
    | nil =>
      simp only [wrapChunksLoop] at hl
      exact hacc l hl
    | cons g0 gs0 =>
      simp only [wrapChunksLoop] at hl
      by_cases hae : acc.isEmpty = true
      · rw [if_pos hae] at hl
        refine ih _ _ ?_ l hl
        intro l' hl'
        repeat' split at hl'
        all_goals
          first
          | exact hacc l' hl'
          | (rw [List.mem_append] at hl'
             rcases hl' with hl' | hl'
             · exact hacc l' hl'
             · rw [List.mem_singleton] at hl'
               subst hl'
               exact wrap_emit_bound width initInd _ hi)
      · rw [if_neg hae] at hl
        refine ih _ _ ?_ l hl
        intro l' hl'
        repeat' split at hl'
        all_goals
          first
          | exact hacc l' hl'
          | (rw [List.mem_append] at hl'
             rcases hl' with hl' | hl'
             · exact hacc l' hl'
             · rw [List.mem_singleton] at hl'
               subst hl'
               exact wrap_emit_bound width subInd _ hs)

theorem lastBraceIdx_lt : ∀ (l : List Char) (k : Nat), lastBraceIdx l = some k → k < l.length := by
  intro l
  induction l with
  | nil => intro k h; simp [lastBraceIdx] at h
  | cons c rest ih =>
    intro k h
    unfold lastBraceIdx at h
    cases hr : lastBraceIdx rest with
    | some k' =>
      rw [hr] at h
      have := ih k' hr
      simp only [Option.some.injEq] at h
      simp only [List.length_cons]
      omega
    | none =>
      rw [hr] at h
      by_cases hc : c = '\x7d'
      · rw [if_pos hc] at h
        simp only [Option.some.injEq] at h
        simp only [List.length_cons]
        omega
      · rw [if_neg hc] at h
        exact absurd h (by simp)

/-- The unmask substitution preserves the length of the matched span. -/
theorem matchUnmaskAt_length (l rep rem : List Char)
    (h : matchUnmaskAt l = some (rep, rem)) : rep.length + rem.length = l.length := by
  cases l with
  | nil => simp [matchUnmaskAt] at h
  | cons c1 l1 =>
    cases l1 with
    | nil => simp [matchUnmaskAt] at h
    | cons c2 rest =>
      simp only [matchUnmaskAt] at h
      by_cases h12 : c1 = '\x7b' ∧ c2 = '@'
      case neg => rw [if_neg h12] at h; simp at h
      case pos =>
        rw [if_pos h12] at h
        by_cases hlet : rest.takeWhile isLowerAZ = []
        · rw [if_pos hlet] at h; simp at h
        · rw [if_neg hlet] at h
          cases hdrop : rest.drop (rest.takeWhile isLowerAZ).length with
          | nil => rw [hdrop] at h; simp at h
          | cons c3 r3 =>
            rw [hdrop] at h
            simp only [] at h
            by_cases h3 : c3 = '_'
            case neg => rw [if_neg h3] at h; simp at h
            case pos =>
              rw [if_pos h3] at h
              cases hk : lastBraceIdx (r3.takeWhile (fun c => !isPySpace c)) with
              | none => rw [hk] at h; simp at h
              | some k =>
                rw [hk] at h
                simp only [] at h
                by_cases h1k : 1 ≤ k
                case neg => rw [if_neg h1k] at h; simp at h
                case pos =>
                  rw [if_pos h1k] at h
                  simp only [Option.some.injEq, Prod.mk.injEq] at h
                  obtain ⟨hrep, hrem⟩ := h
                  have hkl : k < (r3.takeWhile (fun c => !isPySpace c)).length :=
                    lastBraceIdx_lt _ k hk
                  have htw : (rest.takeWhile isLowerAZ).length ≤ rest.length :=
                    (List.takeWhile_sublist _).length_le
                  have htw2 : (r3.takeWhile (fun c => !isPySpace c)).length ≤ r3.length :=
                    (List.takeWhile_sublist _).length_le
                  have hdl : (rest.drop (rest.takeWhile isLowerAZ).length).length
                      = r3.length + 1 := by
                    rw [hdrop]; simp
                  rw [List.length_drop] at hdl
                  subst hrep hrem
                  simp only [List.length_cons, List.length_append, List.length_take,
                    List.length_drop, List.length_nil]
                  omega

theorem reSubScan_length (step : List Char → Option (List Char × List Char))
    (hstep : ∀ l rep rem, step l = some (rep, rem) → rep.length + rem.length = l.length) :
    ∀ (fuel : Nat) (l : List Char), (reSubScan step fuel l).length = l.length := by
  intro fuel
  induction fuel with
  | zero => intro l; rfl
  | succ fuel ih =>
    intro l
    cases l with
    | nil => rfl
    | cons c rest =>
      simp only [reSubScan]
      cases hm : step (c :: rest) with
      | none => simp [ih rest]
      | some pr =>
        obtain ⟨rep, rem⟩ := pr
        simp only [List.length_append, ih rem]
        have := hstep _ _ _ hm
        simp only [List.length_cons] at this ⊢
        omega

/-- Restoring the masked spaces on a wrapped line does not change its length. -/
theorem unmaskLine_length (s : String) : (unmaskLine s).length = s.length := by
  unfold unmaskLine
  exact reSubScan_length matchUnmaskAt matchUnmaskAt_length (s.toList.length + 1) s.toList

/-- `textwrap.wrap` at width 80 never emits a line longer than 80 columns
when each indent leaves at least one content column. -/
theorem pyWrap_le (initInd subInd t : String)
    (hi : initInd.length + 1 ≤ 80) (hs : subInd.length + 1 ≤ 80) :
    ∀ ln ∈ pyWrap 80 initInd subInd t, ln.length ≤ 80 := by
  intro ln hln
  unfold pyWrap at hln
  rw [List.mem_map] at hln
  obtain ⟨l, hl, rfl⟩ := hln
  have h1 : initInd.toList.length = initInd.length := rfl
  have h2 : subInd.toList.length = subInd.length := rfl
  have h4 := wrapChunksLoop_le 80 initInd.toList subInd.toList
    (by omega) (by omega) _ _ [] (by simp) l hl
  have h3 : (String.mk l).length = l.length := rfl
  omega

theorem pyRstrip_length_le (s : String) : (pyRstrip s).length ≤ s.length := by
  show (rstripL s.toList).length ≤ s.toList.length
  unfold rstripL
  calc ((s.toList.reverse.dropWhile isPySpace).reverse).length
      = (s.toList.reverse.dropWhile isPySpace).length := List.length_reverse _
    _ ≤ s.toList.reverse.length := (List.dropWhile_sublist _).length_le
    _ = s.toList.length := List.length_reverse _

/-- Every line of a rendered Javadoc comment fits in 80 columns. -/
theorem formatJavadocLines_le (docRefs : List (String × DocRef))
    (prefixTable : List (String × String)) (doc : DocComment) (indent_size : Nat)
    (h : indent_size ≤ 40) :
    ∀ ln ∈ formatJavadocLines docRefs prefixTable doc indent_size, ln.length ≤ 80 := by
  obtain ⟨blocks⟩ := doc
  have hind : (String.mk (List.replicate indent_size ' ')).length = indent_size := by
    show (List.replicate indent_size ' ').length = indent_size
    simp
  have h3 : (" * " : String).length = 3 := rfl
  have hst : ("/**" : String).length = 3 := rfl
  have hen : (" */" : String).length = 3 := rfl
  have hpg : (" * <p>" : String).length = 6 := rfl
  have hil : ((String.mk (List.replicate indent_size ' ')) ++ " * ").length + 1 ≤ 80 := by
    rw [String.length_append, hind, h3]; omega
  have hRB : ∀ (block : DocBlock) (ln : String),
      ln ∈ (pySplitNl (maskLinks (javaDocBlockToString docRefs prefixTable block))).flatMap
        (fun t => (pyWrap 80 ((String.mk (List.replicate indent_size ' ')) ++ " * ")
          ((String.mk (List.replicate indent_size ' ')) ++ " * ") t).map unmaskLine) →
      ln.length ≤ 80 := by
    intro block ln hln
    rw [List.mem_flatMap] at hln
    obtain ⟨t, _, hln⟩ := hln
    rw [List.mem_map] at hln
    obtain ⟨w, hw, rfl⟩ := hln
    rw [unmaskLine_length]
    exact pyWrap_le _ _ _ hil hil w hw
  intro ln hln
  unfold formatJavadocLines at hln
  cases blocks with
  | nil =>
    rcases List.mem_cons.mp hln with rfl | hln2
    · rw [String.length_append, hind, hst]; omega
    · rcases List.mem_append.mp hln2 with hln3 | hln3
      · exact absurd hln3 (List.not_mem_nil ln)
      · rw [List.mem_singleton.mp hln3, String.length_append, hind, hen]; omega
  | cons b bs =>
    rcases List.mem_cons.mp hln with rfl | hln2
    · rw [String.length_append, hind, hst]; omega
    · rcases List.mem_append.mp hln2 with hln3 | hln3
      · rcases List.mem_append.mp hln3 with hln4 | hln4
        · exact hRB b ln hln4
        · obtain ⟨b', _, hln5⟩ := List.mem_flatMap.mp hln4
          rcases List.mem_cons.mp hln5 with rfl | hln6
          · rw [String.length_append, hind, hpg]; omega
          · exact hRB b' ln hln6
      · rw [List.mem_singleton.mp hln3, String.length_append, hind, hen]; omega

/-- Every line of a rendered Go comment fits in 80 columns. -/
theorem formatCommentLines_le (docRefs : List (String × DocRef)) (doc : DocComment)
    (indent : String) (h : indent.length ≤ 70) :
    ∀ ln ∈ formatCommentLines docRefs doc indent, ln.length ≤ 80 := by
  obtain ⟨blocks⟩ := doc
  have h3 : ("// " : String).length = 3 := rfl
  have h4 : ("   " : String).length = 3 := rfl
  have hil : (indent ++ "// ").length + 1 ≤ 80 := by
    rw [String.length_append, h3]; omega
  have hRB : ∀ (block : DocBlock) (ln : String),
      ln ∈ (pySplitNl (goDocBlockToString docRefs block)).flatMap
        (fun t => pyWrap 80 (indent ++ "// ")
          (if strIsPre " - " t = true then indent ++ "// " ++ "   " else indent ++ "// ")
          (pyReplace (pyReplace t "( " "(") " )" ")")) →
      ln.length ≤ 80 := by
    intro block ln hln
    rw [List.mem_flatMap] at hln
    obtain ⟨t, _, hln⟩ := hln
    refine pyWrap_le _ _ _ hil ?_ ln hln
    by_cases hdash : strIsPre " - " t = true
    · rw [if_pos hdash, String.length_append, String.length_append, h3, h4]; omega
    · rw [if_neg hdash, String.length_append, h3]; omega
  intro ln hln
  unfold formatCommentLines at hln
  cases blocks with
  | nil => simp at hln
  | cons b bs =>
    rw [List.mem_append] at hln
    rcases hln with hln | hln
    · exact hRB b ln hln
    · rw [List.mem_flatMap] at hln
      obtain ⟨b', _, hln⟩ := hln
      rw [List.mem_cons] at hln
      rcases hln with rfl | hln
      · have := pyRstrip_length_le (indent ++ "// ")
        rw [String.length_append, h3] at this
        omega
      · exact hRB b' ln hln

/-- C2, amended: both comment formatters reflow to a fixed width of 80
columns and never emit a line longer than 80 columns (for any indents leaving
at least some content room, which covers the indents the generators use);
atomic tokens are kept on one line only as long as they fit in the width
remaining after the comment indent — `textwrap.wrap` runs with its default
`break_long_words=True`, so a token wider than the line is split at the width
boundary rather than allowed to overflow. -/
theorem C2_reflow_width_bound (docRefs : List (String × DocRef))
    (prefixTable : List (String × String)) (doc : DocComment)
    (indent_size : Nat) (indent : String)
    (hj : indent_size ≤ 40) (hg : indent.length ≤ 70) :
    (∀ ln ∈ formatJavadocLines docRefs prefixTable doc indent_size, ln.length ≤ 80)
    ∧ (∀ ln ∈ formatCommentLines docRefs doc indent, ln.length ≤ 80) :=
  ⟨formatJavadocLines_le docRefs prefixTable doc indent_size hj,
   formatCommentLines_le docRefs doc indent hg⟩

/-- C2, witness. -/
theorem C2_witness :
    ((4 : Nat) ≤ 40 ∧ ("\t" : String).length ≤ 70)
    ∧ ((∀ ln ∈ formatJavadocLines (buildDocRefs sampleModel)
          (buildEnumPrefixesList sampleModel.enums) sampleDoc 4, ln.length ≤ 80)
      ∧ (∀ ln ∈ formatCommentLines (buildDocRefs sampleModel) sampleDoc "\t",
          ln.length ≤ 80)) :=
  ⟨⟨by decide, by decide⟩,
   C2_reflow_width_bound (buildDocRefs sampleModel) (buildEnumPrefixesList sampleModel.enums)
     sampleDoc 4 "\t" (by decide) (by decide)⟩

set_option maxRecDepth 100000 in
/-- C2, counterexample: a resolvable call-reference token whose Go rendering
is a single 84-column atomic token. The claim says such a token is never
split across two output lines regardless of its length; the formatter in fact
splits it at the 80-column boundary — the output has two lines and neither
contains the rendered token whole. -/
theorem C2_counterexample :
    goDocRefToString longTokRefs longTok
      = "Averylongclassname.Averyveryveryveryveryveryveryveryveryveryveryverylongmethodname()"
    ∧ formatCommentLines longTokRefs longTokDoc ""
      = ["// Averylongclassname.Averyveryveryveryveryveryveryveryveryveryveryverylongmetho",
         "// dname()"]
    ∧ (∀ ln ∈ formatCommentLines longTokRefs longTokDoc "",
        ¬ (("Averylongclassname.Averyveryveryveryveryveryveryveryveryveryveryverylongmethodname()").toList
          <:+: ln.toList)) := by
  refine ⟨by decide, by decide, by decide⟩

end Bindgen
